import Mathlib

/-!
# Verification of the voxel simulation and assignment engine

Shallow embedding, over exact rational arithmetic, of the simulation core of
the repository (src/services/VoxelEngine.ts together with the import/export
glue in src/App.tsx and the shared type declarations):

* the per-tick physics integrator used while `DISMANTLING`
  (`updatePhysics`, scene A),
* the greedy colour-based rebuild matcher (`rebuild` / `getColorDist`),
* the interpolation animator and completion detection used while
  `REBUILDING` (`updatePhysics`, scene B),
* the JSON export (`getJsonData`) and import normalisation
  (`handleJsonImport`).

JavaScript numbers are modelled as exact rationals (`ℚ`); all constants of
the source (0.025, 0.5, 0.9, 0.8, 0.12, 0.01, 100, 9999, …) are exact
decimal fractions, so nothing is lost by this choice apart from binary
floating-point rounding, which we deliberately idealise away.

The repository's `src/utils/voxelConstants.ts` (the `CONFIG` and `COLORS`
objects) is not part of the provided sources, so `CONFIG.FLOOR_Y`,
`COLORS.GREEN` and `COLORS.WOOD` are kept as explicit parameters of every
definition that reads them; concrete palette values, where a statement needs
them, are modelled from the spec and marked as such.
-/

namespace VoxelSim

/-- The three engine states (`AppState` in src/types). -/
inductive AppState where
  | STABLE
  | DISMANTLING
  | REBUILDING
deriving DecidableEq, Repr

/-- A colour as three channel values, the model of a `THREE.Color`.
In the source the channels are floats in `[0,1]`; here they are exact
rationals. -/
structure QColor where
  r : ℚ
  g : ℚ
  b : ℚ
deriving DecidableEq, Repr

/-- `new THREE.Color(hex)` for a 24-bit packed integer: each byte becomes a
channel value `byte / 255`. -/
def colorOfHex (n : ℕ) : QColor :=
  ⟨(n / 65536 % 256 : ℕ) / 255, (n / 256 % 256 : ℕ) / 255, (n % 256 : ℕ) / 255⟩

/-- `SimulationVoxel` (src/types): position, velocity, rotation, rotational
velocity and colour.  The stable integer `id` of the source is the list
index and is carried implicitly by position in the list; no modelled
operation reads it. -/
structure SimulationVoxel where
  x : ℚ
  y : ℚ
  z : ℚ
  color : QColor
  vx : ℚ
  vy : ℚ
  vz : ℚ
  rx : ℚ
  ry : ℚ
  rz : ℚ
  rvx : ℚ
  rvy : ℚ
  rvz : ℚ
deriving DecidableEq, Repr

/-- `VoxelData` (src/types): a target point of `rebuild`, colour as a 24-bit
packed integer. -/
structure VoxelData where
  x : ℚ
  y : ℚ
  z : ℚ
  color : ℕ
deriving DecidableEq, Repr

/-- `RebuildTarget` (src/types).  The optional `isRubble` field of the
source is modelled as a `Bool` that is `false` where the source leaves the
field absent. -/
structure RebuildTarget where
  x : ℚ
  y : ℚ
  z : ℚ
  delay : ℚ
  isRubble : Bool
deriving DecidableEq, Repr

/-! ## Physics integrator (`updatePhysics`, scene A: DISMANTLING)

Source (src/services/VoxelEngine.ts, lines 299-312), per voxel:
```
v.vy -= 0.025;
v.x += v.vx; v.y += v.vy; v.z += v.vz;
v.rx += v.rvx; v.ry += v.rvy; v.rz += v.rvz;
if (v.y < CONFIG.FLOOR_Y + 0.5) {
    v.y = CONFIG.FLOOR_Y + 0.5;
    v.vy *= -0.5;
    v.vx *= 0.9; v.vz *= 0.9;
    v.rvx *= 0.8; v.rvy *= 0.8; v.rvz *= 0.8;
}
```
`floorY` stands for the missing constant `CONFIG.FLOOR_Y`. -/
def dismantleStep (floorY : ℚ) (v : SimulationVoxel) : SimulationVoxel :=
  let vy1 := v.vy - 0.025
  let v1 : SimulationVoxel :=
    { v with
      vy := vy1
      x := v.x + v.vx, y := v.y + vy1, z := v.z + v.vz
      rx := v.rx + v.rvx, ry := v.ry + v.rvy, rz := v.rz + v.rvz }
  if v1.y < floorY + 0.5 then
    { v1 with
      y := floorY + 0.5
      vy := v1.vy * (-0.5)
      vx := v1.vx * 0.9, vz := v1.vz * 0.9
      rvx := v1.rvx * 0.8, rvy := v1.rvy * 0.8, rvz := v1.rvz * 0.8 }
  else v1

/-! ## Interpolation animator (`updatePhysics`, scene B: REBUILDING)

Source (src/services/VoxelEngine.ts, lines 315-355).  `Date.now()` is an
external clock, so `elapsed = now - rebuildStartTime` is a parameter of the
tick. -/

/-- One lerp move of the source: `v.x += (t.x - v.x) * speed` with
`speed = 0.12`, the same for the two other coordinates and for the rotation
eased toward `0`. -/
def lerpMove (t : RebuildTarget) (v : SimulationVoxel) : SimulationVoxel :=
  { v with
    x := v.x + (t.x - v.x) * 0.12
    y := v.y + (t.y - v.y) * 0.12
    z := v.z + (t.z - v.z) * 0.12
    rx := v.rx + (0 - v.rx) * 0.12
    ry := v.ry + (0 - v.ry) * 0.12
    rz := v.rz + (0 - v.rz) * 0.12 }

/-- Squared distance from a voxel to its target,
`(t.x - v.x) ** 2 + (t.y - v.y) ** 2 + (t.z - v.z) ** 2` of the source. -/
def sqDist (t : RebuildTarget) (v : SimulationVoxel) : ℚ :=
  (t.x - v.x) ^ 2 + (t.y - v.y) ^ 2 + (t.z - v.z) ^ 2

/-- The snap of the source: `v.x = t.x; ...; v.rx = 0; ...`. -/
def snapTo (t : RebuildTarget) (v : SimulationVoxel) : SimulationVoxel :=
  { v with x := t.x, y := t.y, z := t.z, rx := 0, ry := 0, rz := 0 }

/-- One REBUILDING tick for a single voxel with assignment `t`, returning the
updated voxel together with this voxel's contribution to `allDone` (`true`
iff the voxel did not set `allDone = false`).  Mirrors the body of the
`forEach` at lines 320-349 of the source. -/
def rebuildVoxelStep (elapsed : ℚ) (t : RebuildTarget) (v : SimulationVoxel) :
    SimulationVoxel × Bool :=
  if t.isRubble then (v, true)
  else if elapsed < t.delay then (v, false)
  else
    let m := lerpMove t v
    if sqDist t m > 0.01 then (m, false) else (snapTo t m, true)

/-- The released branch of the REBUILDING tick for one voxel (the code run
once `elapsed >= t.delay` on a non-rubble assignment): lerp toward the
target, then snap when the squared distance is within `0.01`.  Iterating
this function is iterating the voxel's motion;
`rebuildVoxelStep_released` ties it back to the full tick. -/
def voxelTick (t : RebuildTarget) (v : SimulationVoxel) : SimulationVoxel :=
  let m := lerpMove t v
  if sqDist t m > 0.01 then m else snapTo t m

/-- Engine state: the fields of the `VoxelEngine` class that the simulation
core reads and writes (`state`, `voxels`, `rebuildTargets`). -/
structure Engine where
  state : AppState
  voxels : List SimulationVoxel
  rebuildTargets : List RebuildTarget
deriving Repr

/-- `updatePhysics` (src/services/VoxelEngine.ts, lines 296-356).  In the
source the REBUILDING branch walks `voxels` by index and reads
`rebuildTargets[i]`; `rebuild` always installs one target per voxel, so the
two lists have equal length and the walk is a walk of `voxels.zip
rebuildTargets`. -/
def updatePhysics (floorY elapsed : ℚ) (e : Engine) : Engine :=
  match e.state with
  | AppState.DISMANTLING =>
      { e with voxels := e.voxels.map (dismantleStep floorY) }
  | AppState.REBUILDING =>
      let stepped := (e.voxels.zip e.rebuildTargets).map
        (fun p => rebuildVoxelStep elapsed p.2 p.1)
      { e with
        voxels := stepped.map Prod.fst
        state := if stepped.all Prod.snd then AppState.STABLE
                 else AppState.REBUILDING }
  | AppState.STABLE => e

/-! ## Greedy rebuild matcher (`rebuild`, src/services/VoxelEngine.ts 230-291)

The inner loop compares `d + penalty < bestDist` where
`d = Math.sqrt(dsq)` is the luma-weighted colour distance
(`getColorDist`, lines 216-223), `penalty ∈ {0, 100}` and `bestDist` is
either the initial sentinel `9999` or a previously stored `d + penalty`.
Channel values lie in `[0,1]`, so `dsq ≤ 0.3² + 0.59² + 0.11² = 0.4502` and
`d < 1`.  Hence `d₁ + p₁ < d₂ + p₂` holds iff `(p₁, dsq₁) < (p₂, dsq₂)`
lexicographically, and every `d + penalty` is `< 101 < 9999`.  The
embedding therefore represents a candidate's score as the exact pair
`Cost = (penalty, dsq)` compared lexicographically, with `Option.none` for
the `9999` sentinel; `costLt_iff_dist_lt` below proves this order
isomorphism against the real-valued `√dsq + penalty` of the source. -/

/-- The squared luma-weighted colour distance of `getColorDist`
(src/services/VoxelEngine.ts, lines 216-223): the source returns
`Math.sqrt` of this value, computed against `new THREE.Color(hex2)`. -/
def getColorDistSq (c1 : QColor) (hex2 : ℕ) : ℚ :=
  let c2 := colorOfHex hex2
  ((c1.r - c2.r) * 0.3) ^ 2 + ((c1.g - c2.g) * 0.59) ^ 2
    + ((c1.b - c2.b) * 0.11) ^ 2

/-- Line 252 of the source:
`(available[i].color.g > 0.4) || (available[i].color.r < 0.25 && available[i].color.b < 0.25)`. -/
def isLeafOrWood (c : QColor) : Bool :=
  decide (c.g > 0.4) || (decide (c.r < 0.25) && decide (c.b < 0.25))

/-- Line 253 of the source:
`target.color === COLORS.GREEN || target.color === COLORS.WOOD`.
`greenC` and `woodC` stand for the palette constants `COLORS.GREEN` and
`COLORS.WOOD` from the absent `src/utils/voxelConstants.ts`. -/
def targetIsGreen (greenC woodC : ℕ) (targetColor : ℕ) : Bool :=
  targetColor == greenC || targetColor == woodC

/-- The exact score of one candidate: the `penalty` (`0` or `100`) of line
254 together with the squared colour distance.  The source's real-valued
score is `√dsq + penalty`. -/
structure Cost where
  penalty : ℚ
  dsq : ℚ
deriving DecidableEq, Repr

/-- The score of candidate colour `c` against a target colour, lines
248-254 of the source. -/
def costOf (greenC woodC : ℕ) (targetColor : ℕ) (c : QColor) : Cost :=
  { penalty := if isLeafOrWood c && !targetIsGreen greenC woodC targetColor
               then 100 else 0
    dsq := getColorDistSq c targetColor }

/-- `d₁ + p₁ < d₂ + p₂` as the lexicographic order on `(penalty, dsq)`;
see `costLt_iff_dist_lt` for the justification. -/
def costLt (a b : Cost) : Prop :=
  a.penalty < b.penalty ∨ (a.penalty = b.penalty ∧ a.dsq < b.dsq)

instance : DecidablePred fun p : Cost × Cost => costLt p.1 p.2 :=
  fun _ => by unfold costLt; infer_instance

instance (a b : Cost) : Decidable (costLt a b) := by unfold costLt; infer_instance

/-- `d + penalty < bestDist`, where `none` is the initial `bestDist = 9999`
(every candidate score is `< 101 < 9999`, so the first untaken candidate
always improves). -/
def costLtBest (c : Cost) : Option (ℕ × Cost) → Prop
  | none => True
  | some b => costLt c b.2

instance (c : Cost) (b : Option (ℕ × Cost)) : Decidable (costLtBest c b) := by
  cases b <;> simp only [costLtBest] <;> infer_instance

/-- One pool entry of the `available` array: its colour and `taken` flag
(the `index` field of the source always equals the entry's position). -/
abbrev AvailEntry := QColor × Bool

/-- The candidate scan, lines 240-261 of the source: walk the untaken pool
entries keeping the best `(index, score)`; as soon as an improving
candidate with `d < 0.01` (i.e. `dsq < 0.0001`) is stored, `break` — which
returns the just-stored best.  `i` is the absolute index of the first
entry of `es`; the initial call is `scanLoop … es 0 none`. -/
def scanLoop (greenC woodC : ℕ) (targetColor : ℕ) :
    List AvailEntry → ℕ → Option (ℕ × Cost) → Option (ℕ × Cost)
  | [], _, best => best
  | e :: es, i, best =>
    if e.2 then scanLoop greenC woodC targetColor es (i + 1) best
    else
      let c := costOf greenC woodC targetColor e.1
      if costLtBest c best then
        if c.dsq < 0.0001 then some (i, c)
        else scanLoop greenC woodC targetColor es (i + 1) (some (i, c))
      else scanLoop greenC woodC targetColor es (i + 1) best

/-- Mark pool entry `i` as taken (`available[bestIdx].taken = true`). -/
def markTaken : List AvailEntry → ℕ → List AvailEntry
  | [], _ => []
  | e :: es, 0 => (e.1, true) :: es
  | e :: es, n + 1 => e :: markTaken es n

/-- The assignment recorded for a matched target, lines 266-272 of the
source: `delay = Math.max(0, (target.y - CONFIG.FLOOR_Y) / 15) * 800`. -/
def mkAssignment (floorY : ℚ) (t : VoxelData) : RebuildTarget :=
  { x := t.x, y := t.y, z := t.z
    delay := max 0 ((t.y - floorY) / 15) * 800
    isRubble := false }

/-- Process one target of the `targetModel.forEach` loop: scan the pool,
and on success mark the winner taken and store its assignment. -/
def processTarget (greenC woodC : ℕ) (floorY : ℚ)
    (st : List AvailEntry × List (Option RebuildTarget)) (t : VoxelData) :
    List AvailEntry × List (Option RebuildTarget) :=
  match scanLoop greenC woodC t.color st.1 0 none with
  | none => st
  | some (i, _) => (markTaken st.1 i, st.2.set i (some (mkAssignment floorY t)))

/-- `rebuild(targetModel)` (src/services/VoxelEngine.ts, lines 230-291):
greedy matching followed by the rubble fill-in for voxels never taken.
The guard `if (this.state === REBUILDING) return;` and the final state
change are part of the engine lifecycle; this function is the computed
`mappings` array. -/
def rebuild (greenC woodC : ℕ) (floorY : ℚ)
    (voxels : List SimulationVoxel) (targets : List VoxelData) :
    List RebuildTarget :=
  let avail : List AvailEntry := voxels.map (fun v => (v.color, false))
  let init : List (Option RebuildTarget) :=
    List.replicate voxels.length none
  let final := targets.foldl (processTarget greenC woodC floorY) (avail, init)
  (final.2.zip voxels).map (fun p =>
    p.1.getD { x := p.2.x, y := p.2.y, z := p.2.z, delay := 0, isRubble := true })

/-! ### Modelled palette constants

`src/utils/voxelConstants.ts` is not among the provided sources. -/

/-- Modelled from the spec: the palette constant `COLORS.GREEN` of the
missing `src/utils/voxelConstants.ts`.  The spec classifies foliage
colours by `green channel > 0.4`; `0x4CAF50` (green channel
`175/255 ≈ 0.686`) is such a colour.  The exact value is unknown; every
statement below that depends on it is also proved for arbitrary palette
values wherever the claim allows it. -/
def COLORS_GREEN : ℕ := 0x4CAF50

/-- Modelled from the spec: the palette constant `COLORS.WOOD` of the
missing `src/utils/voxelConstants.ts`; `0x8D6E63` is a wood brown whose
green channel `110/255 ≈ 0.431` passes the spec's foliage/wood channel
test. -/
def COLORS_WOOD : ℕ := 0x8D6E63

/-! # Claims about the rebuild matcher -/

/-- A pure-red voxel (`0xFF0000`) at the origin, at rest. -/
def redVoxel : SimulationVoxel :=
  { x := 0, y := 0, z := 0, color := colorOfHex 0xFF0000,
    vx := 0, vy := 0, vz := 0, rx := 0, ry := 0, rz := 0,
    rvx := 0, rvy := 0, rvz := 0 }

/-- A pure-green voxel (`0x00FF00`), at rest. -/
def greenVoxel : SimulationVoxel :=
  { x := 7, y := 0, z := 0, color := colorOfHex 0x00FF00,
    vx := 0, vy := 0, vz := 0, rx := 0, ry := 0, rz := 0,
    rvx := 0, rvy := 0, rvz := 0 }

/-- A pure-green target point at position `(1, 2, 3)`. -/
def greenTarget : VoxelData := { x := 1, y := 2, z := 3, color := 0x00FF00 }

/-- A pure-red target point at position `(4, 5, 6)`. -/
def redTarget : VoxelData := { x := 4, y := 5, z := 6, color := 0xFF0000 }

/-- **C1, counterexample.**  With voxels `[red 0xFF0000, green 0x00FF00]`
and targets `[green, red]`, the matcher does *not* pair the green target
with the green voxel: the green candidate's exact match (`d = 0`) is scored
`0 + 100` by the foliage penalty (the pure green `0x00FF00` is not one of
the modelled palette constants), losing to the red candidate's `≈ 0.66`,
so the green target takes the red voxel (index 0) and the red target takes
the green voxel (index 1). -/
theorem c1_exact_color_counterexample :
    rebuild COLORS_GREEN COLORS_WOOD 0 [redVoxel, greenVoxel]
        [greenTarget, redTarget] =
      [{ x := 1, y := 2, z := 3, delay := 320 / 3, isRubble := false },
       { x := 4, y := 5, z := 6, delay := 800 / 3, isRubble := false }] ∧
    ((rebuild COLORS_GREEN COLORS_WOOD 0 [redVoxel, greenVoxel]
        [greenTarget, redTarget]).map (fun a => (a.x, a.y, a.z)))[1]? ≠
      some (greenTarget.x, greenTarget.y, greenTarget.z) := by
  constructor
  · norm_num [rebuild, processTarget, scanLoop, costOf, costLtBest, costLt,
      getColorDistSq, colorOfHex, isLeafOrWood, targetIsGreen, markTaken,
      mkAssignment, COLORS_GREEN, COLORS_WOOD, redVoxel, greenVoxel,
      greenTarget, redTarget, List.replicate, List.set, List.zip,
      List.zipWith, Option.getD]
  · norm_num [rebuild, processTarget, scanLoop, costOf, costLtBest, costLt,
      getColorDistSq, colorOfHex, isLeafOrWood, targetIsGreen, markTaken,
      mkAssignment, COLORS_GREEN, COLORS_WOOD, redVoxel, greenVoxel,
      greenTarget, redTarget, List.replicate, List.set, List.zip,
      List.zipWith, Option.getD]

/-- **C1, amended.**  The exact-colour scenario resolves *swapped*: for
every value of the palette constants `COLORS.GREEN`/`COLORS.WOOD` other
than pure `0x00FF00` itself, the scan for the green target `0x00FF00`
selects index 0 — the *red* voxel, with score `(penalty 0, dsq 0.4381)` —
because the exact-match green candidate is priced at `0 + 100` by the
foliage penalty; consequently (shown for the modelled palette and every
`FLOOR_Y`) the rebuild assigns the green target position `(1,2,3)` to the
red voxel and the red target position `(4,5,6)` to the remaining green
voxel.  The claim's expected pairing would require `0x00FF00` to be
literally one of the two palette constants. -/
theorem c1_exact_color_amended (greenC woodC : ℕ) (floorY : ℚ)
    (hg : greenC ≠ 0x00FF00) (hw : woodC ≠ 0x00FF00) :
    scanLoop greenC woodC 65280
        [(redVoxel.color, false), (greenVoxel.color, false)] 0 none
      = some (0, ⟨0, 4381 / 10000⟩) ∧
    rebuild COLORS_GREEN COLORS_WOOD floorY [redVoxel, greenVoxel]
        [greenTarget, redTarget] =
      [{ x := 1, y := 2, z := 3, delay := max 0 ((2 - floorY) / 15) * 800,
         isRubble := false },
       { x := 4, y := 5, z := 6, delay := max 0 ((5 - floorY) / 15) * 800,
         isRubble := false }] := by
  constructor
  · have ht0 : targetIsGreen greenC woodC 65280 = false := by
      simp only [targetIsGreen, Bool.or_eq_false_iff, beq_eq_false_iff_ne, ne_eq]
      omega
    norm_num [scanLoop, costOf, costLtBest, costLt, getColorDistSq, colorOfHex,
      isLeafOrWood, ht0, redVoxel, greenVoxel]
  · norm_num [rebuild, processTarget, scanLoop, costOf, costLtBest, costLt,
      getColorDistSq, colorOfHex, isLeafOrWood, targetIsGreen, markTaken,
      mkAssignment, COLORS_GREEN, COLORS_WOOD, redVoxel, greenVoxel,
      greenTarget, redTarget, List.replicate, List.set, List.zip,
      List.zipWith, Option.getD]

/-- Witness for the amended C1, at the modelled palette and `FLOOR_Y = 0`. -/
theorem c1_exact_color_amended_witness :
    (COLORS_GREEN ≠ 0x00FF00 ∧ COLORS_WOOD ≠ 0x00FF00) ∧
    (scanLoop COLORS_GREEN COLORS_WOOD 65280
        [(redVoxel.color, false), (greenVoxel.color, false)] 0 none
      = some (0, ⟨0, 4381 / 10000⟩) ∧
    rebuild COLORS_GREEN COLORS_WOOD 0 [redVoxel, greenVoxel]
        [greenTarget, redTarget] =
      [{ x := 1, y := 2, z := 3, delay := max 0 ((2 - 0) / 15) * 800,
         isRubble := false },
       { x := 4, y := 5, z := 6, delay := max 0 ((5 - 0) / 15) * 800,
         isRubble := false }]) :=
  ⟨⟨by decide, by decide⟩,
    c1_exact_color_amended COLORS_GREEN COLORS_WOOD 0 (by decide) (by decide)⟩

/-- **C2, counterexample.**  The penalty gate of the code compares the
target colour with the two palette constants, not with the channel test of
the claim: for the leafy candidate `0x00CC00` and the target `0x00FF00`
— which *is* foliage-classified by the channel test (`g = 1 > 0.4`), so the
claim says no penalty — the code still adds `+100`, because `0x00FF00` is
not one of the palette constants. -/
theorem c2_penalty_counterexample :
    (costOf COLORS_GREEN COLORS_WOOD 0x00FF00 (colorOfHex 0x00CC00)).penalty
        = 100 ∧
    isLeafOrWood (colorOfHex 0x00FF00) = true := by
  constructor
  · norm_num [costOf, isLeafOrWood, targetIsGreen, colorOfHex,
      COLORS_GREEN, COLORS_WOOD]
  · norm_num [isLeafOrWood, colorOfHex]

/-- **C2, amended.**  For every target and candidate, the `+100` penalty is
added exactly when the candidate's colour is foliage/wood-classified by the
channel test (green channel `> 0.4`, or both red and blue channels
`< 0.25`) while the target's colour is *not literally equal* to one of the
two palette constants `COLORS.GREEN`, `COLORS.WOOD`; the penalty is `0`
otherwise. -/
theorem c2_penalty_amended (greenC woodC targetColor : ℕ) (c : QColor) :
    ((costOf greenC woodC targetColor c).penalty = 100 ↔
      ((c.g > 0.4 ∨ (c.r < 0.25 ∧ c.b < 0.25)) ∧
        ¬(targetColor = greenC ∨ targetColor = woodC))) ∧
    ((costOf greenC woodC targetColor c).penalty = 100 ∨
      (costOf greenC woodC targetColor c).penalty = 0) := by
  have key : (costOf greenC woodC targetColor c).penalty = 100 ↔
      (isLeafOrWood c && !targetIsGreen greenC woodC targetColor) = true := by
    simp only [costOf]
    split
    next h => simp only [h, iff_true]
    next h => simp only [h, iff_false]; norm_num
  constructor
  · rw [key]
    simp only [isLeafOrWood, targetIsGreen, Bool.and_eq_true, Bool.or_eq_true,
      decide_eq_true_eq, Bool.not_eq_true', Bool.or_eq_false_iff,
      beq_eq_false_iff_ne, ne_eq]
    tauto
  · simp only [costOf]
    split <;> simp

/-! ## Structural lemmas about the candidate scan -/

/-- Once a best candidate is stored the scan can no longer return `none`. -/
theorem scanLoop_isSome_of_best (greenC woodC tc : ℕ) :
    ∀ (es : List AvailEntry) (i : ℕ) (b : ℕ × Cost),
      (scanLoop greenC woodC tc es i (some b)).isSome = true := by
  intro es
  induction es with
  | nil => intro i b; rfl
  | cons e es ih =>
    intro i b
    simp only [scanLoop]
    split
    · exact ih (i + 1) b
    · split
      · split
        · rfl
        · exact ih (i + 1) _
      · exact ih (i + 1) b

/-- If some pool entry is untaken, a scan started with the `9999` sentinel
finds a candidate. -/
theorem scanLoop_isSome_of_untaken (greenC woodC tc : ℕ) :
    ∀ (es : List AvailEntry) (i : ℕ), (∃ e ∈ es, e.2 = false) →
      (scanLoop greenC woodC tc es i none).isSome = true := by
  intro es
  induction es with
  | nil => rintro i ⟨e, he, -⟩; cases he
  | cons e es ih =>
    rintro i ⟨f, hf, hf2⟩
    simp only [scanLoop]
    split
    next htaken =>
      rcases List.mem_cons.mp hf with rfl | hmem
      · rw [hf2] at htaken; cases htaken
      · exact ih (i + 1) ⟨f, hmem, hf2⟩
    · split
      · split
        · rfl
        · exact scanLoop_isSome_of_best greenC woodC tc es (i + 1) _
      · next hlt =>
        exact absurd trivial hlt

/-- A scan over an all-taken pool returns its accumulator unchanged. -/
theorem scanLoop_all_taken (greenC woodC tc : ℕ) :
    ∀ (es : List AvailEntry), (∀ e ∈ es, e.2 = true) →
      ∀ (i : ℕ) (b : Option (ℕ × Cost)),
        scanLoop greenC woodC tc es i b = b := by
  intro es
  induction es with
  | nil => intro _ i b; rfl
  | cons e es ih =>
    intro h i b
    simp only [scanLoop]
    rw [if_pos (h e (List.mem_cons_self e es))]
    exact ih (fun f hf => h f (List.mem_cons_of_mem e hf)) (i + 1) b

/-- Characterisation of a successful scan: the result is either the
accumulator itself, or an untaken entry of the scanned list at absolute
index `i + k`, scored by `costOf`. -/
theorem scanLoop_eq_some_spec (greenC woodC tc : ℕ) :
    ∀ (es : List AvailEntry) (i : ℕ) (b : Option (ℕ × Cost)) (j : ℕ) (c : Cost),
      scanLoop greenC woodC tc es i b = some (j, c) →
      b = some (j, c) ∨
        ∃ k, ∃ hk : k < es.length, j = i + k ∧ es[k].2 = false ∧
          c = costOf greenC woodC tc es[k].1 := by
  intro es
  induction es with
  | nil => intro i b j c h; exact Or.inl h
  | cons e es ih =>
    intro i b j c h
    simp only [scanLoop] at h
    by_cases htaken : e.2 = true
    · rw [if_pos htaken] at h
      rcases ih (i + 1) b j c h with hb | ⟨k, hk, hjk, hkt, hkc⟩
      · exact Or.inl hb
      · refine Or.inr ⟨k + 1, by simpa using hk, by omega, ?_, ?_⟩
        · simpa using hkt
        · simpa using hkc
    · rw [if_neg htaken] at h
      have he2 : e.2 = false := by simpa using htaken
      split at h
      · split at h
        · obtain ⟨rfl, rfl⟩ : i = j ∧ costOf greenC woodC tc e.1 = c := by
            have h2 := Option.some_inj.mp h
            exact ⟨congrArg Prod.fst h2, congrArg Prod.snd h2⟩
          refine Or.inr ⟨0, by simp, by omega, by simpa using he2, by simp⟩
        · rcases ih (i + 1) _ j c h with hb | ⟨k, hk, hjk, hkt, hkc⟩
          · obtain ⟨rfl, rfl⟩ : i = j ∧ costOf greenC woodC tc e.1 = c := by
              have h2 := Option.some_inj.mp hb
              exact ⟨congrArg Prod.fst h2, congrArg Prod.snd h2⟩
            exact Or.inr ⟨0, by simp, by omega, by simpa using he2, by simp⟩
          · refine Or.inr ⟨k + 1, by simpa using hk, by omega, ?_, ?_⟩
            · simpa using hkt
            · simpa using hkc
      · rcases ih (i + 1) b j c h with hb | ⟨k, hk, hjk, hkt, hkc⟩
        · exact Or.inl hb
        · refine Or.inr ⟨k + 1, by simpa using hk, by omega, ?_, ?_⟩
          · simpa using hkt
          · simpa using hkc

/-! ## Bookkeeping lemmas for the pool and the assignment array -/

theorem markTaken_length : ∀ (es : List AvailEntry) (i : ℕ),
    (markTaken es i).length = es.length := by
  intro es
  induction es with
  | nil => intro i; rfl
  | cons e es ih =>
    intro i
    cases i with
    | zero => rfl
    | succ n => simpa [markTaken] using ih n

theorem markTaken_getElem_self : ∀ (es : List AvailEntry) (i : ℕ)
    (h : i < es.length) (h2 : i < (markTaken es i).length),
    (markTaken es i)[i] = (es[i].1, true) := by
  intro es
  induction es with
  | nil => intro i h h2; cases h
  | cons e es ih =>
    intro i h h2
    cases i with
    | zero => rfl
    | succ n =>
      simpa [markTaken] using ih n (by simpa using h) (by
        simpa [markTaken_length] using h)

theorem markTaken_getElem_ne : ∀ (es : List AvailEntry) (i k : ℕ)
    (hk : k < es.length) (hk2 : k < (markTaken es i).length), k ≠ i →
    (markTaken es i)[k] = es[k] := by
  intro es
  induction es with
  | nil => intro i k hk _ _; cases hk
  | cons e es ih =>
    intro i k hk hk2 hne
    cases i with
    | zero =>
      cases k with
      | zero => exact absurd rfl hne
      | succ m => simp [markTaken]
    | succ n =>
      cases k with
      | zero => simp [markTaken]
      | succ m =>
        simpa [markTaken] using ih n m (by simpa using hk) (by
          simpa [markTaken_length] using hk) (by omega)

/-- Counting a pointwise-related predicate across two lists of equal
length. -/
theorem countP_eq_of_pointwise (p : α → Bool) (q : β → Bool) :
    ∀ (l₁ : List α) (l₂ : List β), l₁.length = l₂.length →
      (∀ i (h₁ : i < l₁.length) (h₂ : i < l₂.length), p l₁[i] = q l₂[i]) →
      l₁.countP p = l₂.countP q := by
  intro l₁
  induction l₁ with
  | nil =>
    intro l₂ hlen _
    cases l₂ with
    | nil => rfl
    | cons b l₂ => cases hlen
  | cons a l₁ ih =>
    intro l₂ hlen hpt
    cases l₂ with
    | nil => cases hlen
    | cons b l₂ =>
      have h0 := hpt 0 (by simp) (by simp)
      simp only [List.getElem_cons_zero] at h0
      have hrest := ih l₂ (by simpa using hlen)
        (fun i h₁ h₂ => by simpa using hpt (i + 1) (by simpa using h₁) (by simpa using h₂))
      simp only [List.countP_cons, hrest, h0]

/-- Setting a failing position to a satisfying value bumps the count. -/
theorem countP_set_succ (p : α → Bool) :
    ∀ (l : List α) (i : ℕ) (a : α) (h : i < l.length),
      p l[i] = false → p a = true →
      (l.set i a).countP p = l.countP p + 1 := by
  intro l
  induction l with
  | nil => intro i a h; cases h
  | cons x l ih =>
    intro i a h hold hnew
    cases i with
    | zero =>
      simp only [List.getElem_cons_zero] at hold
      simp [List.set, List.countP_cons, hold, hnew]
    | succ n =>
      simp only [List.getElem_cons_succ] at hold
      have := ih n a (by simpa using h) hold hnew
      simp only [List.set, List.countP_cons, this]
      omega

/-- If some position fails the predicate, the count is short of the
length. -/
theorem countP_lt_length (p : α → Bool) :
    ∀ (l : List α) (i : ℕ) (h : i < l.length), p l[i] = false →
      l.countP p < l.length := by
  intro l
  induction l with
  | nil => intro i h; cases h
  | cons x l ih =>
    intro i h hfail
    cases i with
    | zero =>
      simp only [List.getElem_cons_zero] at hfail
      have : l.countP p ≤ l.length := l.countP_le_length p
      simp [List.countP_cons, hfail]
      omega
    | succ n =>
      simp only [List.getElem_cons_succ] at hfail
      have := ih n (by simpa using h) hfail
      simp only [List.countP_cons, List.length_cons]
      split <;> omega

/-- The master invariant carried through the `targetModel.forEach` fold of
`rebuild`: the pool and the assignment array keep their (equal) lengths, an
assignment is present exactly at the taken indices, and every present
assignment satisfies `Q`. -/
def MatchInv (Q : RebuildTarget → Prop)
    (st : List AvailEntry × List (Option RebuildTarget)) : Prop :=
  (∀ i (h₁ : i < st.1.length) (h₂ : i < st.2.length),
      st.2[i].isSome = st.1[i].2) ∧
  (∀ i (h : i < st.2.length) (a : RebuildTarget), st.2[i] = some a → Q a)

/-- One `processTarget` step preserves the lengths and the invariant, and
advances the assignment count by one exactly while untaken entries
remain. -/
theorem processTarget_spec (greenC woodC : ℕ) (floorY : ℚ)
    (Q : RebuildTarget → Prop) (st : List AvailEntry × List (Option RebuildTarget))
    (t : VoxelData) (hlen : st.1.length = st.2.length)
    (hinv : MatchInv Q st) (hQ : Q (mkAssignment floorY t)) :
    (processTarget greenC woodC floorY st t).1.length = st.1.length ∧
    (processTarget greenC woodC floorY st t).2.length = st.2.length ∧
    MatchInv Q (processTarget greenC woodC floorY st t) ∧
    (processTarget greenC woodC floorY st t).2.countP (·.isSome)
      = min (st.2.countP (·.isSome) + 1) st.2.length := by
  obtain ⟨hpt, hQall⟩ := hinv
  cases hscan : scanLoop greenC woodC t.color st.1 0 none with
  | none =>
    have halltaken : ∀ e ∈ st.1, e.2 = true := by
      by_contra hex
      push_neg at hex
      obtain ⟨e, he, he2⟩ := hex
      have hsome := scanLoop_isSome_of_untaken greenC woodC t.color st.1 0
        ⟨e, he, by simpa using he2⟩
      rw [hscan] at hsome
      cases hsome
    have hcount : st.2.countP (·.isSome) = st.2.length := by
      have h1 : st.2.countP (·.isSome) = st.1.countP (·.2) :=
        countP_eq_of_pointwise _ _ st.2 st.1 hlen.symm
          (fun i h₁ h₂ => hpt i h₂ h₁)
      have h2 : st.1.countP (·.2) = st.1.length :=
        List.countP_eq_length.mpr (fun e he => by simpa using halltaken e he)
      rw [h1, h2, hlen]
    simp only [processTarget, hscan]
    refine ⟨by trivial, by trivial, ⟨hpt, hQall⟩, by rw [hcount]; omega⟩
  | some jc =>
    obtain ⟨j, c⟩ := jc
    rcases scanLoop_eq_some_spec greenC woodC t.color st.1 0 none j c hscan with
      hnone | ⟨k, hk, hjk, hkt, -⟩
    · cases hnone
    have hj1 : j < st.1.length := by omega
    have hjt : st.1[j].2 = false := by subst hjk; simpa using hkt
    have hj2 : j < st.2.length := by omega
    simp only [processTarget, hscan]
    refine ⟨markTaken_length st.1 j, by simp, ⟨?_, ?_⟩, ?_⟩
    · intro i h₁ h₂
      rcases eq_or_ne i j with rfl | hne
      · rw [markTaken_getElem_self st.1 i hj1 (by simpa [markTaken_length] using hj1),
          List.getElem_set_self (by simpa using hj2)]
        rfl
      · rw [markTaken_getElem_ne st.1 j i
          (by simpa [markTaken_length] using h₁) (by simpa using h₁) hne,
          List.getElem_set_ne hne.symm (by simpa using h₂)]
        exact hpt i (by simpa [markTaken_length] using h₁) (by simpa using h₂)
    · intro i h a ha
      rcases eq_or_ne i j with rfl | hne
      · rw [List.getElem_set_self (by simpa using hj2)] at ha
        cases ha
        exact hQ
      · rw [List.getElem_set_ne hne.symm (by simpa using h)] at ha
        exact hQall i (by simpa using h) a ha
    · have hfail : st.2[j].isSome = false := by rw [hpt j hj1 hj2, hjt]
      have hlt := countP_lt_length (·.isSome) st.2 j hj2 hfail
      have hset := countP_set_succ (·.isSome) st.2 j
        (some (mkAssignment floorY t)) hj2 hfail rfl
      rw [hset]
      omega

/-- The whole matching fold: lengths and invariant are preserved and the
number of stored assignments saturates at `min (#processed) N`. -/
theorem foldl_processTarget_spec (greenC woodC : ℕ) (floorY : ℚ)
    (Q : RebuildTarget → Prop) :
    ∀ (ts : List VoxelData) (st : List AvailEntry × List (Option RebuildTarget)),
      st.1.length = st.2.length →
      (∀ t ∈ ts, Q (mkAssignment floorY t)) →
      MatchInv Q st →
      (List.foldl (processTarget greenC woodC floorY) st ts).1.length
          = st.1.length ∧
      (List.foldl (processTarget greenC woodC floorY) st ts).2.length
          = st.2.length ∧
      MatchInv Q (List.foldl (processTarget greenC woodC floorY) st ts) ∧
      (List.foldl (processTarget greenC woodC floorY) st ts).2.countP (·.isSome)
          = min (st.2.countP (·.isSome) + ts.length) st.2.length := by
  intro ts
  induction ts with
  | nil =>
    intro st hlen hQ hinv
    simp only [List.foldl_nil, List.length_nil]
    refine ⟨by trivial, by trivial, hinv, ?_⟩
    have hle := List.countP_le_length (l := st.2) (p := (·.isSome))
    omega
  | cons t ts ih =>
    intro st hlen hQ hinv
    obtain ⟨l1, l2, inv1, cnt1⟩ := processTarget_spec greenC woodC floorY Q st t
      hlen hinv (hQ t (List.mem_cons_self t ts))
    obtain ⟨r1, r2, rinv, rcnt⟩ := ih (processTarget greenC woodC floorY st t)
      (by rw [l1, l2]; exact hlen)
      (fun t2 ht2 => hQ t2 (List.mem_cons_of_mem t ht2)) inv1
    simp only [List.foldl_cons]
    refine ⟨by rw [r1, l1], by rw [r2, l2], rinv, ?_⟩
    rw [rcnt, cnt1, l2]
    have hle := List.countP_le_length (l := st.2) (p := (·.isSome))
    simp only [List.length_cons]
    omega

/-- **C6.**  Every `rebuild` call returns exactly one assignment per voxel:
each taken voxel gets some target's position with
`delay = max 0 ((t.y - FLOOR_Y) / 15) * 800` and `isRubble = false`; each
never-taken voxel gets `isRubble = true`, `delay = 0` and its own position;
and the number of non-rubble assignments is `min M N`, so each target
beyond the exhaustion of the pool produces no assignment (in particular,
with 3 voxels and 1 target exactly 1 assignment is non-rubble). -/
theorem c6_rebuild_assignment_structure (greenC woodC : ℕ) (floorY : ℚ)
    (voxels : List SimulationVoxel) (targets : List VoxelData) :
    (rebuild greenC woodC floorY voxels targets).length = voxels.length ∧
    (∀ i (hv : i < voxels.length)
        (hr : i < (rebuild greenC woodC floorY voxels targets).length),
      ((rebuild greenC woodC floorY voxels targets)[i].isRubble = true ∧
        (rebuild greenC woodC floorY voxels targets)[i].delay = 0 ∧
        (rebuild greenC woodC floorY voxels targets)[i].x = voxels[i].x ∧
        (rebuild greenC woodC floorY voxels targets)[i].y = voxels[i].y ∧
        (rebuild greenC woodC floorY voxels targets)[i].z = voxels[i].z) ∨
      ((rebuild greenC woodC floorY voxels targets)[i].isRubble = false ∧
        ∃ t ∈ targets,
          (rebuild greenC woodC floorY voxels targets)[i].x = t.x ∧
          (rebuild greenC woodC floorY voxels targets)[i].y = t.y ∧
          (rebuild greenC woodC floorY voxels targets)[i].z = t.z ∧
          (rebuild greenC woodC floorY voxels targets)[i].delay
            = max 0 ((t.y - floorY) / 15) * 800)) ∧
    (rebuild greenC woodC floorY voxels targets).countP (fun a => !a.isRubble)
      = min targets.length voxels.length := by
  set Q : RebuildTarget → Prop := fun a =>
    a.isRubble = false ∧ ∃ t ∈ targets, a.x = t.x ∧ a.y = t.y ∧ a.z = t.z ∧
      a.delay = max 0 ((t.y - floorY) / 15) * 800 with hQdef
  set st0 : List AvailEntry × List (Option RebuildTarget) :=
    (voxels.map (fun v => (v.color, false)), List.replicate voxels.length none)
    with hst0
  have hlen0 : st0.1.length = st0.2.length := by simp [hst0]
  have hinv0 : MatchInv Q st0 := by
    constructor
    · intro i h₁ h₂
      simp [hst0]
    · intro i h a ha
      simp [hst0] at ha
  have hQ0 : ∀ t ∈ targets, Q (mkAssignment floorY t) := by
    intro t ht
    exact ⟨rfl, t, ht, rfl, rfl, rfl, rfl⟩
  obtain ⟨f1, f2, ⟨fpt, fQ⟩, fcnt⟩ :=
    foldl_processTarget_spec greenC woodC floorY Q targets st0 hlen0 hQ0 hinv0
  have hcnt0 : st0.2.countP (·.isSome) = 0 := by
    simp only [hst0]
    induction voxels.length with
    | zero => rfl
    | succ n ihn => simp [List.replicate, List.countP_cons, ihn]
  have hlen2 : st0.2.length = voxels.length := by simp [hst0]
  have hlen1 : st0.1.length = voxels.length := by simp [hst0]
  have hreb : rebuild greenC woodC floorY voxels targets =
      ((List.foldl (processTarget greenC woodC floorY) st0 targets).2.zip
        voxels).map (fun p =>
          p.1.getD { x := p.2.x, y := p.2.y, z := p.2.z, delay := 0,
                     isRubble := true }) := by
    simp only [rebuild, hst0]
  have hflen : (List.foldl (processTarget greenC woodC floorY) st0 targets).2.length
      = voxels.length := by rw [f2, hlen2]
  have hrlen : (rebuild greenC woodC floorY voxels targets).length
      = voxels.length := by
    rw [hreb]
    simp [hflen]
  refine ⟨hrlen, ?_, ?_⟩
  · intro i hv hr
    have hfi : i < (List.foldl (processTarget greenC woodC floorY) st0 targets).2.length := by
      omega
    have hgi : (rebuild greenC woodC floorY voxels targets)[i] =
        ((List.foldl (processTarget greenC woodC floorY) st0 targets).2[i]).getD
          { x := voxels[i].x, y := voxels[i].y, z := voxels[i].z, delay := 0,
            isRubble := true } := by
      simp only [hreb]
      rw [List.getElem_map, List.getElem_zip]
    cases hfe : (List.foldl (processTarget greenC woodC floorY) st0 targets).2[i] with
    | none =>
      left
      rw [hgi, hfe]
      exact ⟨rfl, rfl, rfl, rfl, rfl⟩
    | some a =>
      right
      have hQa := fQ i hfi a hfe
      rw [hgi, hfe]
      exact hQa
  · have hpt2 : ∀ i (h₁ : i < (rebuild greenC woodC floorY voxels targets).length)
        (h₂ : i < (List.foldl (processTarget greenC woodC floorY) st0 targets).2.length),
        (fun a => !a.isRubble) (rebuild greenC woodC floorY voxels targets)[i]
          = (·.isSome) (List.foldl (processTarget greenC woodC floorY) st0 targets).2[i] := by
      intro i h₁ h₂
      have hv : i < voxels.length := by omega
      have hgi : (rebuild greenC woodC floorY voxels targets)[i] =
          ((List.foldl (processTarget greenC woodC floorY) st0 targets).2[i]).getD
            { x := voxels[i].x, y := voxels[i].y, z := voxels[i].z, delay := 0,
              isRubble := true } := by
        simp only [hreb]
        rw [List.getElem_map, List.getElem_zip]
      cases hfe : (List.foldl (processTarget greenC woodC floorY) st0 targets).2[i] with
      | none => rw [hgi, hfe]; rfl
      | some a =>
        obtain ⟨hrub, -⟩ := fQ i h₂ a hfe
        rw [hgi, hfe]
        simp [Option.getD, hrub]
    have := countP_eq_of_pointwise (fun a => !a.isRubble) (·.isSome)
      (rebuild greenC woodC floorY voxels targets)
      (List.foldl (processTarget greenC woodC floorY) st0 targets).2
      (by rw [hrlen, hflen]) hpt2
    rw [this, fcnt, hcnt0, hlen2]
    omega

/-- Witness for C6: the surplus-voxel scenario — 3 voxels, 1 target —
yields 3 assignments of which exactly `min 1 3 = 1` is non-rubble. -/
theorem c6_rebuild_assignment_structure_witness :
    (rebuild COLORS_GREEN COLORS_WOOD 0 [redVoxel, greenVoxel, redVoxel]
        [greenTarget]).length = 3 ∧
    (rebuild COLORS_GREEN COLORS_WOOD 0 [redVoxel, greenVoxel, redVoxel]
        [greenTarget]).countP (fun a => !a.isRubble) = min 1 3 := by
  have h := c6_rebuild_assignment_structure COLORS_GREEN COLORS_WOOD 0
    [redVoxel, greenVoxel, redVoxel] [greenTarget]
  exact ⟨by simpa using h.1, by simpa using h.2.2⟩

/-! # Claims about the interpolation animator and lifecycle -/

/-- **C10.**  A REBUILDING tick whose assignments are rubble-only (or whose
voxel array is empty) immediately returns the engine to `STABLE`: rubble
assignments never hold `allDone` down.  Moreover a `rebuild` with an empty
target list produces only rubble assignments, and a `rebuild` on an empty
voxel array produces no assignments at all, so such a rebuild is followed
by an immediate transition back to `STABLE` on the very first tick. -/
theorem c10_rubble_only_returns_stable (greenC woodC : ℕ)
    (floorY elapsed : ℚ) (voxels : List SimulationVoxel)
    (targets : List VoxelData) (e : Engine)
    (hs : e.state = AppState.REBUILDING)
    (h : (∀ t ∈ e.rebuildTargets, t.isRubble = true) ∨ e.voxels = []) :
    (updatePhysics floorY elapsed e).state = AppState.STABLE ∧
    (∀ a ∈ rebuild greenC woodC floorY voxels [], a.isRubble = true) ∧
    rebuild greenC woodC floorY [] targets = [] := by
  refine ⟨?_, ?_, ?_⟩
  · simp only [updatePhysics, hs]
    have hall : ((e.voxels.zip e.rebuildTargets).map
        (fun p => rebuildVoxelStep elapsed p.2 p.1)).all Prod.snd = true := by
      rcases h with hrub | hempty
      · rw [List.all_eq_true]
        intro x hx
        simp only [List.mem_map] at hx
        obtain ⟨p, hp, rfl⟩ := hx
        have hmem := (List.of_mem_zip hp).2
        simp [rebuildVoxelStep, hrub p.2 hmem]
      · simp [hempty]
    simp [hall]
  · intro a ha
    simp only [rebuild, List.foldl_nil, List.mem_map] at ha
    obtain ⟨p, hp, rfl⟩ := ha
    have h1 := (List.of_mem_zip hp).1
    have h2 := List.eq_of_mem_replicate h1
    rw [h2]
    rfl
  · have hf : ∀ ts : List VoxelData,
        List.foldl (processTarget greenC woodC floorY) ([], []) ts = ([], []) := by
      intro ts
      induction ts with
      | nil => rfl
      | cons t ts ih => simpa [List.foldl_cons, processTarget, scanLoop] using ih
    simp [rebuild, hf]

/-- A rubble assignment parked at the origin. -/
def originRubble : RebuildTarget :=
  { x := 0, y := 0, z := 0, delay := 0, isRubble := true }

/-- A one-voxel engine in the REBUILDING state whose only assignment is
rubble. -/
def rubbleEngine : Engine :=
  { state := AppState.REBUILDING, voxels := [redVoxel],
    rebuildTargets := [originRubble] }

/-- Witness for C10: a rubble-only engine goes `STABLE` in one tick. -/
theorem c10_rubble_only_returns_stable_witness :
    (rubbleEngine.state = AppState.REBUILDING ∧
      ((∀ t ∈ rubbleEngine.rebuildTargets, t.isRubble = true) ∨
        rubbleEngine.voxels = [])) ∧
    (updatePhysics 0 0 rubbleEngine).state = AppState.STABLE :=
  ⟨⟨rfl, Or.inl (by decide)⟩,
    (c10_rubble_only_returns_stable COLORS_GREEN COLORS_WOOD 0 0 [] []
      rubbleEngine rfl (Or.inl (by decide))).1⟩

/-! ## Convergence helpers for the REBUILDING lerp -/

theorem sqDist_nonneg (t : RebuildTarget) (v : SimulationVoxel) :
    0 ≤ sqDist t v := by
  simp only [sqDist]
  positivity

/-- One lerp move scales the squared distance by exactly
`(1 - 0.12)² = 0.7744 = 484/625`. -/
theorem sqDist_lerpMove (t : RebuildTarget) (v : SimulationVoxel) :
    sqDist t (lerpMove t v) = 484 / 625 * sqDist t v := by
  simp only [sqDist, lerpMove]
  ring

/-- The full tick acts as `voxelTick` on every released non-rubble
voxel. -/
theorem rebuildVoxelStep_released (elapsed : ℚ) (t : RebuildTarget)
    (v : SimulationVoxel) (hr : t.isRubble = false)
    (hd : t.delay ≤ elapsed) :
    (rebuildVoxelStep elapsed t v).1 = voxelTick t v := by
  simp only [rebuildVoxelStep, voxelTick, hr, Bool.false_eq_true, if_false]
  rw [if_neg (not_lt.mpr hd)]
  split <;> rfl

/-- The per-voxel tick never grows the squared distance and contracts it by
the factor `484/625` unless it snaps. -/
theorem sqDist_voxelTick_le (t : RebuildTarget) (v : SimulationVoxel) :
    sqDist t (voxelTick t v) ≤ 484 / 625 * sqDist t v := by
  have h0 := sqDist_nonneg t v
  simp only [voxelTick]
  split
  · rw [sqDist_lerpMove]
  · have hz : sqDist t (snapTo t (lerpMove t v)) = 0 := by
      simp [sqDist, snapTo]
    rw [hz]
    linarith

/-- Once within the `0.01` squared-distance threshold, the next tick snaps
the voxel exactly onto the target with zero rotation. -/
theorem voxelTick_snaps (t : RebuildTarget) (v : SimulationVoxel)
    (hclose : sqDist t v ≤ 0.01) :
    (voxelTick t v).x = t.x ∧ (voxelTick t v).y = t.y ∧
    (voxelTick t v).z = t.z ∧ (voxelTick t v).rx = 0 ∧
    (voxelTick t v).ry = 0 ∧ (voxelTick t v).rz = 0 := by
  have h0 := sqDist_nonneg t v
  have h1 : ¬ sqDist t (lerpMove t v) > 0.01 := by
    rw [sqDist_lerpMove]
    intro hgt
    rw [show (0.01 : ℚ) = 1 / 100 from by norm_num] at hgt hclose
    nlinarith
  simp only [voxelTick]
  rw [if_neg h1]
  exact ⟨rfl, rfl, rfl, rfl, rfl, rfl⟩

/-- Iterating the tick contracts the squared distance geometrically. -/
theorem sqDist_iterate_le (t : RebuildTarget) (v : SimulationVoxel) :
    ∀ k : ℕ, sqDist t ((voxelTick t)^[k] v) ≤ (484 / 625) ^ k * sqDist t v := by
  intro k
  induction k with
  | zero => simp
  | succ n ih =>
    rw [Function.iterate_succ_apply']
    calc sqDist t (voxelTick t ((voxelTick t)^[n] v))
        ≤ 484 / 625 * sqDist t ((voxelTick t)^[n] v) :=
          sqDist_voxelTick_le t _
      _ ≤ 484 / 625 * ((484 / 625) ^ n * sqDist t v) := by
          have h484 : (0 : ℚ) ≤ 484 / 625 := by norm_num
          exact mul_le_mul_of_nonneg_left ih h484
      _ = (484 / 625) ^ (n + 1) * sqDist t v := by ring

/-- **C7.**  For a non-rubble assignment whose delay has elapsed the
REBUILDING tick acts as `voxelTick`; each such tick strictly decreases the
(squared) distance to the target while it is positive; after finitely many
ticks the voxel is snapped exactly onto the target coordinates with zero
rotation; and once every voxel of the engine is rubble or released and at
its target, the tick transitions the state to `STABLE`. -/
theorem c7_interpolation_convergence (floorY elapsed : ℚ)
    (t : RebuildTarget) (v : SimulationVoxel) (e : Engine)
    (hr : t.isRubble = false) (hs : e.state = AppState.REBUILDING)
    (hall : ∀ p ∈ e.voxels.zip e.rebuildTargets, p.2.isRubble = true ∨
      (p.2.delay ≤ elapsed ∧ p.1.x = p.2.x ∧ p.1.y = p.2.y ∧ p.1.z = p.2.z)) :
    (∀ e2 : ℚ, t.delay ≤ e2 → (rebuildVoxelStep e2 t v).1 = voxelTick t v) ∧
    (0 < sqDist t v → sqDist t (voxelTick t v) < sqDist t v) ∧
    (∃ k : ℕ, ((voxelTick t)^[k] v).x = t.x ∧ ((voxelTick t)^[k] v).y = t.y ∧
      ((voxelTick t)^[k] v).z = t.z ∧ ((voxelTick t)^[k] v).rx = 0 ∧
      ((voxelTick t)^[k] v).ry = 0 ∧ ((voxelTick t)^[k] v).rz = 0) ∧
    (updatePhysics floorY elapsed e).state = AppState.STABLE := by
  refine ⟨?_, ?_, ?_, ?_⟩
  · intro e2 hd
    exact rebuildVoxelStep_released e2 t v hr hd
  · intro hD
    have h := sqDist_voxelTick_le t v
    have h2 : 484 / 625 * sqDist t v < sqDist t v := by linarith
    exact lt_of_le_of_lt h h2
  · have hD := sqDist_nonneg t v
    obtain ⟨k0, hk0⟩ := exists_pow_lt_of_lt_one
      (show (0 : ℚ) < (1 / 100) / (sqDist t v + 1) by positivity)
      (show (484 / 625 : ℚ) < 1 by norm_num)
    have hb : (484 / 625 : ℚ) ^ k0 * sqDist t v ≤ 1 / 100 := by
      have h1 : (484 / 625 : ℚ) ^ k0 * sqDist t v
          ≤ ((1 / 100) / (sqDist t v + 1)) * sqDist t v :=
        mul_le_mul_of_nonneg_right hk0.le hD
      have h2 : ((1 / 100 : ℚ) / (sqDist t v + 1)) * sqDist t v ≤ 1 / 100 := by
        rw [div_mul_eq_mul_div, div_le_iff₀ (by positivity)]
        nlinarith
      linarith
    have hclose : sqDist t ((voxelTick t)^[k0] v) ≤ 0.01 := by
      have hit := sqDist_iterate_le t v k0
      rw [show (0.01 : ℚ) = 1 / 100 from by norm_num]
      linarith
    refine ⟨k0 + 1, ?_⟩
    rw [Function.iterate_succ_apply']
    exact voxelTick_snaps t _ hclose
  · simp only [updatePhysics, hs]
    have hallb : ((e.voxels.zip e.rebuildTargets).map
        (fun p => rebuildVoxelStep elapsed p.2 p.1)).all Prod.snd = true := by
      rw [List.all_eq_true]
      intro x hx
      simp only [List.mem_map] at hx
      obtain ⟨p, hp, rfl⟩ := hx
      rcases hall p hp with hrub | ⟨hd, hx1, hy1, hz1⟩
      · simp [rebuildVoxelStep, hrub]
      · by_cases hrb : p.2.isRubble = true
        · simp [rebuildVoxelStep, hrb]
        · have hrb2 : p.2.isRubble = false := by simpa using hrb
          have hD : sqDist p.2 p.1 = 0 := by
            simp [sqDist, hx1, hy1, hz1]
          have hm : sqDist p.2 (lerpMove p.2 p.1) = 0 := by
            rw [sqDist_lerpMove, hD]; ring
          norm_num [rebuildVoxelStep, hrb2, not_lt.mpr hd, hm]
    simp [hallb]

/-- The spec's convergence example target: position `(10, 0, 0)`, no
delay, not rubble. -/
def targetTen : RebuildTarget :=
  { x := 10, y := 0, z := 0, delay := 0, isRubble := false }

/-- A REBUILDING engine with no voxels (every per-voxel obligation is
vacuous). -/
def emptyRebuildEngine : Engine :=
  { state := AppState.REBUILDING, voxels := [], rebuildTargets := [] }

/-- Witness for C7: the spec's example — voxel at the origin, target
`(10,0,0)`, speed `0.12`, no delay — snaps onto the target in finitely
many ticks, and the vacuous engine goes `STABLE`. -/
theorem c7_interpolation_convergence_witness :
    (targetTen.isRubble = false ∧
      emptyRebuildEngine.state = AppState.REBUILDING ∧
      (∀ p ∈ emptyRebuildEngine.voxels.zip emptyRebuildEngine.rebuildTargets,
        p.2.isRubble = true ∨ (p.2.delay ≤ 0 ∧ p.1.x = p.2.x ∧
          p.1.y = p.2.y ∧ p.1.z = p.2.z))) ∧
    (∃ k : ℕ, ((voxelTick targetTen)^[k] redVoxel).x = targetTen.x ∧
      ((voxelTick targetTen)^[k] redVoxel).y = targetTen.y ∧
      ((voxelTick targetTen)^[k] redVoxel).z = targetTen.z ∧
      ((voxelTick targetTen)^[k] redVoxel).rx = 0 ∧
      ((voxelTick targetTen)^[k] redVoxel).ry = 0 ∧
      ((voxelTick targetTen)^[k] redVoxel).rz = 0) ∧
    (updatePhysics 0 0 emptyRebuildEngine).state = AppState.STABLE := by
  have h := c7_interpolation_convergence 0 0 targetTen redVoxel
    emptyRebuildEngine rfl rfl (by intro p hp; simp [emptyRebuildEngine] at hp)
  exact ⟨⟨rfl, rfl, by intro p hp; simp [emptyRebuildEngine] at hp⟩,
    h.2.2.1, h.2.2.2⟩

/-! ## Order lemmas for the candidate score -/

theorem costLt_irrefl (a : Cost) : ¬ costLt a a := by
  simp [costLt]

theorem costLt_trans {a b c : Cost} (h1 : costLt a b) (h2 : costLt b c) :
    costLt a c := by
  rcases h1 with h1 | ⟨h1e, h1d⟩ <;> rcases h2 with h2 | ⟨h2e, h2d⟩
  · exact Or.inl (lt_trans h1 h2)
  · exact Or.inl (h2e ▸ h1)
  · exact Or.inl (h1e ▸ h2)
  · exact Or.inr ⟨h1e.trans h2e, lt_trans h1d h2d⟩

theorem costLt_asymm {a b : Cost} (h : costLt a b) : ¬ costLt b a :=
  fun h2 => costLt_irrefl a (costLt_trans h h2)

theorem costLe_trans {a b c : Cost} (h1 : ¬ costLt b a) (h2 : ¬ costLt c b) :
    ¬ costLt c a := by
  simp only [costLt, not_or, not_and, not_lt] at h1 h2 ⊢
  obtain ⟨h1p, h1d⟩ := h1
  obtain ⟨h2p, h2d⟩ := h2
  refine ⟨by linarith, ?_⟩
  intro he
  have hba : b.penalty = a.penalty := by linarith
  have hcb : c.penalty = b.penalty := by linarith
  have d1 := h1d hba
  have d2 := h2d hcb
  linarith

/-- The scan's running best only improves: the final score never exceeds
the score stored in the accumulator. -/
theorem scanLoop_le_best (greenC woodC tc : ℕ) :
    ∀ (es : List AvailEntry) (i : ℕ) (b : ℕ × Cost) (j : ℕ) (c : Cost),
      scanLoop greenC woodC tc es i (some b) = some (j, c) →
      ¬ costLt b.2 c := by
  intro es
  induction es with
  | nil =>
    intro i b j c h
    cases h
    exact costLt_irrefl _
  | cons e es ih =>
    intro i b j c h
    simp only [scanLoop] at h
    split at h
    · exact ih (i + 1) b j c h
    · split at h
      next himp =>
        have himp2 : costLt (costOf greenC woodC tc e.1) b.2 := by
          simpa [costLtBest] using himp
        split at h
        · cases h
          exact costLt_asymm himp2
        · have hle := ih (i + 1) (i, costOf greenC woodC tc e.1) j c h
          intro hcon
          exact hle (costLt_trans himp2 hcon)
      next himp =>
        exact ih (i + 1) b j c h

/-- Minimality of the scan when no untaken candidate triggers the exact
match break (`dsq < 0.0001`): the returned score is a minimum of the
scores of all untaken entries. -/
theorem scanLoop_min (greenC woodC tc : ℕ) :
    ∀ (es : List AvailEntry),
      (∀ e ∈ es, e.2 = false →
        ¬ (costOf greenC woodC tc e.1).dsq < 0.0001) →
      ∀ (i : ℕ) (b : Option (ℕ × Cost)) (j : ℕ) (c : Cost),
        scanLoop greenC woodC tc es i b = some (j, c) →
        ∀ k, (hk : k < es.length) → es[k].2 = false →
          ¬ costLt (costOf greenC woodC tc es[k].1) c := by
  intro es
  induction es with
  | nil =>
    intro _ i b j c h k hk
    cases hk
  | cons e es ih =>
    intro hsmall i b j c h k hk hkt
    have hsmallTail : ∀ e2 ∈ es, e2.2 = false →
        ¬ (costOf greenC woodC tc e2.1).dsq < 0.0001 :=
      fun e2 he2 => hsmall e2 (List.mem_cons_of_mem e he2)
    simp only [scanLoop] at h
    by_cases he : e.2 = true
    · rw [if_pos he] at h
      cases k with
      | zero =>
        simp only [List.getElem_cons_zero] at hkt
        rw [hkt] at he
        cases he
      | succ m =>
        have := ih hsmallTail (i + 1) b j c h m (by simpa using hk)
          (by simpa using hkt)
        simpa using this
    · rw [if_neg he] at h
      have he2 : e.2 = false := by simpa using he
      split at h
      next himp =>
        split at h
        next hbrk =>
          exact absurd hbrk (hsmall e (List.mem_cons_self e es) he2)
        next hbrk =>
          cases k with
          | zero =>
            have := scanLoop_le_best greenC woodC tc es (i + 1)
              (i, costOf greenC woodC tc e.1) j c h
            simpa using this
          | succ m =>
            have := ih hsmallTail (i + 1) _ j c h m (by simpa using hk)
              (by simpa using hkt)
            simpa using this
      next himp =>
        cases b with
        | none => exact absurd trivial (by simp [costLtBest] at himp)
        | some b0 =>
          have hnb : ¬ costLt (costOf greenC woodC tc e.1) b0.2 := by
            simpa [costLtBest] using himp
          cases k with
          | zero =>
            have hcb := scanLoop_le_best greenC woodC tc es (i + 1) b0 j c h
            simpa using costLe_trans hcb hnb
          | succ m =>
            have := ih hsmallTail (i + 1) (some b0) j c h m
              (by simpa using hk) (by simpa using hkt)
            simpa using this

/-! ## Bounds on the colour distance, and the order isomorphism with the
real-valued `√dsq + penalty` of the source -/

theorem colorOfHex_channels (n : ℕ) :
    0 ≤ (colorOfHex n).r ∧ (colorOfHex n).r ≤ 1 ∧
    0 ≤ (colorOfHex n).g ∧ (colorOfHex n).g ≤ 1 ∧
    0 ≤ (colorOfHex n).b ∧ (colorOfHex n).b ≤ 1 := by
  have h1 : ((n / 65536 % 256 : ℕ) : ℚ) ≤ 255 := by
    exact_mod_cast Nat.le_of_lt_succ (Nat.mod_lt _ (by norm_num))
  have h2 : ((n / 256 % 256 : ℕ) : ℚ) ≤ 255 := by
    exact_mod_cast Nat.le_of_lt_succ (Nat.mod_lt _ (by norm_num))
  have h3 : ((n % 256 : ℕ) : ℚ) ≤ 255 := by
    exact_mod_cast Nat.le_of_lt_succ (Nat.mod_lt _ (by norm_num))
  simp only [colorOfHex]
  refine ⟨by positivity, ?_, by positivity, ?_, by positivity, ?_⟩ <;>
    rw [div_le_one (by norm_num)]
  · exact h1
  · exact h2
  · exact h3

theorem getColorDistSq_nonneg (c : QColor) (hex : ℕ) :
    0 ≤ getColorDistSq c hex := by
  simp only [getColorDistSq]
  positivity

theorem getColorDistSq_le_one (c : QColor)
    (h : 0 ≤ c.r ∧ c.r ≤ 1 ∧ 0 ≤ c.g ∧ c.g ≤ 1 ∧ 0 ≤ c.b ∧ c.b ≤ 1)
    (hex : ℕ) : getColorDistSq c hex ≤ 1 := by
  obtain ⟨h1, h2, h3, h4, h5, h6⟩ := h
  obtain ⟨g1, g2, g3, g4, g5, g6⟩ := colorOfHex_channels hex
  simp only [getColorDistSq]
  have hr2 : (c.r - (colorOfHex hex).r) ^ 2 ≤ 1 := by nlinarith
  have hg2 : (c.g - (colorOfHex hex).g) ^ 2 ≤ 1 := by nlinarith
  have hb2 : (c.b - (colorOfHex hex).b) ^ 2 ≤ 1 := by nlinarith
  nlinarith

theorem costOf_penalty_cases (greenC woodC tc : ℕ) (c : QColor) :
    (costOf greenC woodC tc c).penalty = 0 ∨
    (costOf greenC woodC tc c).penalty = 100 := by
  simp only [costOf]
  split
  · exact Or.inr rfl
  · exact Or.inl rfl

theorem costOf_dsq (greenC woodC tc : ℕ) (c : QColor) :
    (costOf greenC woodC tc c).dsq = getColorDistSq c tc := rfl

/-- The lexicographic `Cost` order agrees with the order of the source's
real-valued score `√dsq + penalty`, for scores whose penalty is `0` or
`100` and whose squared distance lies in `[0, 1]` (as every colour
distance does). -/
theorem costLe_sqrt_le {a b : Cost}
    (hap : a.penalty = 0 ∨ a.penalty = 100)
    (hbp : b.penalty = 0 ∨ b.penalty = 100)
    (had1 : a.dsq ≤ 1) (h : ¬ costLt b a) :
    Real.sqrt (a.dsq : ℝ) + (a.penalty : ℝ) ≤
      Real.sqrt (b.dsq : ℝ) + (b.penalty : ℝ) := by
  simp only [costLt, not_or, not_and, not_lt] at h
  obtain ⟨hp, hd⟩ := h
  rcases eq_or_lt_of_le hp with heq | hlt
  · have hdd := hd heq.symm
    have hs : Real.sqrt (a.dsq : ℝ) ≤ Real.sqrt (b.dsq : ℝ) :=
      Real.sqrt_le_sqrt (by exact_mod_cast hdd)
    have hpe : (a.penalty : ℝ) = (b.penalty : ℝ) := by exact_mod_cast heq
    linarith
  · rcases hap with ha | ha <;> rcases hbp with hb | hb
    · rw [ha, hb] at hlt; norm_num at hlt
    · have hs1 : Real.sqrt (a.dsq : ℝ) ≤ 1 :=
        Real.sqrt_le_one.mpr (by exact_mod_cast had1)
      have hs2 : (0 : ℝ) ≤ Real.sqrt (b.dsq : ℝ) := Real.sqrt_nonneg _
      rw [ha, hb]
      norm_num
      linarith
    · rw [ha, hb] at hlt; norm_num at hlt
    · rw [ha, hb] at hlt; norm_num at hlt

/-! # Claims about the short-circuit (C3) -/

/-- **C3, counterexample.**  The `d < 0.01` short-circuit *does* change the
selection: scanning the pool `[0xFE0000, 0xFF0000]` for the target
`0xFF0000`, the scan breaks at index 0 (distance `1/850 < 0.01`, score
`(penalty 0, dsq 1/722500)`) although the untaken entry at index 1 is an
exact match whose `d + penalty = 0` is strictly smaller — so a full scan
over all untaken entries would have chosen index 1. -/
theorem c3_short_circuit_counterexample :
    scanLoop COLORS_GREEN COLORS_WOOD 16711680
        [(colorOfHex 0xFE0000, false), (colorOfHex 0xFF0000, false)] 0 none
      = some (0, ⟨0, 1 / 722500⟩) ∧
    Real.sqrt ((costOf COLORS_GREEN COLORS_WOOD 16711680
        (colorOfHex 0xFF0000)).dsq : ℝ) +
      ((costOf COLORS_GREEN COLORS_WOOD 16711680
        (colorOfHex 0xFF0000)).penalty : ℝ) <
    Real.sqrt (((1 : ℚ) / 722500 : ℚ) : ℝ) + ((0 : ℚ) : ℝ) := by
  constructor
  · norm_num [scanLoop, costOf, costLtBest, costLt, getColorDistSq,
      colorOfHex, isLeafOrWood, targetIsGreen, COLORS_GREEN, COLORS_WOOD]
  · have hd : (costOf COLORS_GREEN COLORS_WOOD 16711680
        (colorOfHex 16711680)).dsq = 0 := by
      norm_num [costOf, getColorDistSq, colorOfHex]
    have hp : (costOf COLORS_GREEN COLORS_WOOD 16711680
        (colorOfHex 16711680)).penalty = 0 := by
      norm_num [costOf, isLeafOrWood, targetIsGreen, colorOfHex,
        COLORS_GREEN, COLORS_WOOD]
    rw [hd, hp]
    have hpos : (0 : ℝ) < Real.sqrt (((1 : ℚ) / 722500 : ℚ) : ℝ) :=
      Real.sqrt_pos.mpr (by norm_num)
    simp only [Rat.cast_zero, Real.sqrt_zero, add_zero, zero_add]
    exact hpos

/-- **C3, amended.**  When no untaken candidate is an exact match
(`d ≥ 0.01`, so the short-circuit cannot fire), the scanned winner is an
untaken pool entry minimising the source's real-valued score
`√dsq + penalty` over all untaken entries.  (The counterexample shows the
unrestricted claim false: a fired short-circuit can select a candidate
that a full scan would not have chosen.) -/
theorem c3_short_circuit_amended (greenC woodC tc : ℕ) (es : List AvailEntry)
    (hch : ∀ e ∈ es, 0 ≤ e.1.r ∧ e.1.r ≤ 1 ∧ 0 ≤ e.1.g ∧ e.1.g ≤ 1 ∧
      0 ≤ e.1.b ∧ e.1.b ≤ 1)
    (hsmall : ∀ e ∈ es, e.2 = false →
      ¬ (costOf greenC woodC tc e.1).dsq < 0.0001)
    (j : ℕ) (c : Cost)
    (hscan : scanLoop greenC woodC tc es 0 none = some (j, c)) :
    ∃ hj : j < es.length, es[j].2 = false ∧
      c = costOf greenC woodC tc es[j].1 ∧
      ∀ k, (hk : k < es.length) → es[k].2 = false →
        Real.sqrt (c.dsq : ℝ) + (c.penalty : ℝ) ≤
          Real.sqrt ((costOf greenC woodC tc es[k].1).dsq : ℝ) +
            ((costOf greenC woodC tc es[k].1).penalty : ℝ) := by
  rcases scanLoop_eq_some_spec greenC woodC tc es 0 none j c hscan with
    h0 | ⟨k0, hk0, hj0, hjt, hjc⟩
  · cases h0
  have hjk : j = k0 := by omega
  subst hjk
  refine ⟨hk0, hjt, hjc, ?_⟩
  intro k hk hkt
  have hmin := scanLoop_min greenC woodC tc es hsmall 0 none j c hscan k hk hkt
  have hmemj : es[j] ∈ es := List.getElem_mem hk0
  have hchj := hch es[j] hmemj
  refine costLe_sqrt_le ?_ ?_ ?_ hmin
  · rw [hjc]
    exact costOf_penalty_cases greenC woodC tc es[j].1
  · exact costOf_penalty_cases greenC woodC tc es[k].1
  · rw [hjc, costOf_dsq]
    exact getColorDistSq_le_one es[j].1 hchj tc

/-- The pool for the C3 witness: a red and a green voxel, neither an exact
match for the blue target `0x0000FF`. -/
def bluePool : List AvailEntry :=
  [(colorOfHex 0xFF0000, false), (colorOfHex 0x00FF00, false)]

/-- Witness for the amended C3: scanning `bluePool` for blue selects the
red entry (index 0), which minimises `√dsq + penalty` over the pool. -/
theorem c3_short_circuit_amended_witness :
    ((∀ e ∈ bluePool, 0 ≤ e.1.r ∧ e.1.r ≤ 1 ∧ 0 ≤ e.1.g ∧ e.1.g ≤ 1 ∧
        0 ≤ e.1.b ∧ e.1.b ≤ 1) ∧
      (∀ e ∈ bluePool, e.2 = false →
        ¬ (costOf COLORS_GREEN COLORS_WOOD 255 e.1).dsq < 0.0001) ∧
      scanLoop COLORS_GREEN COLORS_WOOD 255 bluePool 0 none
        = some (0, ⟨0, 1021 / 10000⟩)) ∧
    (∃ hj : 0 < bluePool.length, bluePool[0].2 = false ∧
      (⟨0, 1021 / 10000⟩ : Cost) = costOf COLORS_GREEN COLORS_WOOD 255
        bluePool[0].1 ∧
      ∀ k, (hk : k < bluePool.length) → bluePool[k].2 = false →
        Real.sqrt (((⟨0, 1021 / 10000⟩ : Cost).dsq : ℚ) : ℝ) +
            (((⟨0, 1021 / 10000⟩ : Cost).penalty : ℚ) : ℝ) ≤
          Real.sqrt ((costOf COLORS_GREEN COLORS_WOOD 255
              bluePool[k].1).dsq : ℝ) +
            ((costOf COLORS_GREEN COLORS_WOOD 255
              bluePool[k].1).penalty : ℝ)) := by
  have hch : ∀ e ∈ bluePool, 0 ≤ e.1.r ∧ e.1.r ≤ 1 ∧ 0 ≤ e.1.g ∧
      e.1.g ≤ 1 ∧ 0 ≤ e.1.b ∧ e.1.b ≤ 1 := by
    intro e he
    fin_cases he <;> norm_num [colorOfHex]
  have hsmall : ∀ e ∈ bluePool, e.2 = false →
      ¬ (costOf COLORS_GREEN COLORS_WOOD 255 e.1).dsq < 0.0001 := by
    intro e he _
    fin_cases he <;> norm_num [costOf, getColorDistSq, colorOfHex]
  have hscan : scanLoop COLORS_GREEN COLORS_WOOD 255 bluePool 0 none
      = some (0, ⟨0, 1021 / 10000⟩) := by
    norm_num [bluePool, scanLoop, costOf, costLtBest, costLt, getColorDistSq,
      colorOfHex, isLeafOrWood, targetIsGreen, COLORS_GREEN, COLORS_WOOD]
  exact ⟨⟨hch, hsmall, hscan⟩,
    c3_short_circuit_amended COLORS_GREEN COLORS_WOOD 255 bluePool hch hsmall
      0 ⟨0, 1021 / 10000⟩ hscan⟩

/-! # Claims about the physics integrator -/

/-- **C4.** While the state is `DISMANTLING`, a tick updates every voxel by
exactly: `vy` decreases by `0.025`; the position increments componentwise by
the velocity; the rotation increments componentwise by the rotational
velocity; then, if the resulting `y < FLOOR_Y + 0.5`, `y` is set to
`FLOOR_Y + 0.5`, `vy` is replaced by `-0.5 * vy`, `vx` and `vz` are
multiplied by `0.9` and `rvx, rvy, rvz` by `0.8`; a voxel with
`y ≥ FLOOR_Y + 0.5` after integration keeps all its (rotational) velocities
unchanged by the collision step. -/
theorem dismantling_tick_formula (floorY elapsed : ℚ) (e : Engine)
    (hs : e.state = AppState.DISMANTLING) :
    (updatePhysics floorY elapsed e).voxels = e.voxels.map (fun v =>
      let vy1 := v.vy - 0.025
      let yInt := v.y + vy1
      if yInt < floorY + 0.5 then
        { v with
          x := v.x + v.vx, y := floorY + 0.5, z := v.z + v.vz
          rx := v.rx + v.rvx, ry := v.ry + v.rvy, rz := v.rz + v.rvz
          vx := v.vx * 0.9, vy := vy1 * (-0.5), vz := v.vz * 0.9
          rvx := v.rvx * 0.8, rvy := v.rvy * 0.8, rvz := v.rvz * 0.8 }
      else
        { v with
          x := v.x + v.vx, y := yInt, z := v.z + v.vz
          rx := v.rx + v.rvx, ry := v.ry + v.rvy, rz := v.rz + v.rvz
          vy := vy1 }) := by
  simp only [updatePhysics, hs]
  refine List.map_congr_left (fun v _ => ?_)
  simp only [dismantleStep]

/-- Witness for C4: a concrete dismantling tick hitting the bounce branch. -/
theorem dismantling_tick_formula_witness :
    (({ state := AppState.DISMANTLING,
        voxels := [{ x := 0, y := 0.4, z := 0, color := ⟨1, 0, 0⟩,
                     vx := 0.2, vy := 0, vz := -0.1,
                     rx := 0, ry := 0, rz := 0,
                     rvx := 0.1, rvy := 0.1, rvz := 0.1 }],
        rebuildTargets := [] } : Engine).state = AppState.DISMANTLING) ∧
    (updatePhysics 0 0
      { state := AppState.DISMANTLING,
        voxels := [{ x := 0, y := 0.4, z := 0, color := ⟨1, 0, 0⟩,
                     vx := 0.2, vy := 0, vz := -0.1,
                     rx := 0, ry := 0, rz := 0,
                     rvx := 0.1, rvy := 0.1, rvz := 0.1 }],
        rebuildTargets := [] }).voxels =
      [{ x := 0.2, y := 0.5, z := -0.1, color := ⟨1, 0, 0⟩,
         vx := 0.18, vy := 0.0125, vz := -0.09,
         rx := 0.1, ry := 0.1, rz := 0.1,
         rvx := 0.08, rvy := 0.08, rvz := 0.08 }] := by
  refine ⟨rfl, ?_⟩
  rw [dismantling_tick_formula 0 0 _ rfl]
  norm_num

/-- **C5.** For every tick executed while the state is `DISMANTLING`, the
`y`-position of every voxel at the end of the tick is at least
`FLOOR_Y + 0.5`, regardless of the voxel's starting position or velocity. -/
theorem dismantling_floor_invariant (floorY elapsed : ℚ) (e : Engine)
    (hs : e.state = AppState.DISMANTLING) :
    ∀ v ∈ (updatePhysics floorY elapsed e).voxels, floorY + 0.5 ≤ v.y := by
  simp only [updatePhysics, hs, List.mem_map]
  rintro v ⟨w, -, rfl⟩
  simp only [dismantleStep]
  split
  next h => simp
  next h => exact le_of_not_lt h

/-- Witness for C5: a voxel shot far below the floor is clamped back. -/
theorem dismantling_floor_invariant_witness :
    (({ state := AppState.DISMANTLING,
        voxels := [{ x := 0, y := -50, z := 0, color := ⟨0, 0, 0⟩,
                     vx := 0, vy := -3, vz := 0,
                     rx := 0, ry := 0, rz := 0,
                     rvx := 0, rvy := 0, rvz := 0 }],
        rebuildTargets := [] } : Engine).state = AppState.DISMANTLING) ∧
    ∀ v ∈ (updatePhysics (-10) 7
      { state := AppState.DISMANTLING,
        voxels := [{ x := 0, y := -50, z := 0, color := ⟨0, 0, 0⟩,
                     vx := 0, vy := -3, vz := 0,
                     rx := 0, ry := 0, rz := 0,
                     rvx := 0, rvy := 0, rvz := 0 }],
        rebuildTargets := [] }).voxels, (-10 : ℚ) + 0.5 ≤ v.y :=
  ⟨rfl, dismantling_floor_invariant (-10) 7 _ rfl⟩

/-! ## JSON export (`getJsonData`) and import (`handleJsonImport`)

`getJsonData` (src/services/VoxelEngine.ts, lines 387-396) builds the
record array
`{ id, x: +v.x.toFixed(2), y, z, c: '#' + v.color.getHexString() }` and
stringifies it; `handleJsonImport` (src/App.tsx, lines 148-182) parses a
JSON string and normalises each record.  `JSON.stringify` followed by
`JSON.parse` is the identity on finite numbers and strings, so the
embedding works with the record arrays on either side of the JSON text.
Field values coming out of `JSON.parse` are modelled by `JSVal` (number,
string, or null — the shapes this pipeline distinguishes; non-finite
numbers cannot come out of `JSON.parse`). -/

/-- A JSON field value as the import code distinguishes them. -/
inductive JSVal where
  | num (q : ℚ)
  | str (s : String)
  | null
deriving DecidableEq, Repr

/-- JS truthiness of a possibly-absent field value (`undefined`, `null`,
`0` and the empty string are falsy). -/
def truthy : Option JSVal → Bool
  | none => false
  | some (JSVal.num q) => q != 0
  | some (JSVal.str s) => s != ""
  | some JSVal.null => false

/-- JS `a || b`. -/
def jsOr (a b : Option JSVal) : Option JSVal := if truthy a then a else b

/-- Hexadecimal digit value of a character, `none` for a non-digit. -/
def hexDigitVal (ch : Char) : Option ℕ :=
  if '0' ≤ ch ∧ ch ≤ '9' then some (ch.toNat - 48)
  else if 'a' ≤ ch ∧ ch ≤ 'f' then some (ch.toNat - 87)
  else if 'A' ≤ ch ∧ ch ≤ 'F' then some (ch.toNat - 55)
  else none

/-- Value of a run of hexadecimal digits. -/
def hexVal (ds : List Char) : ℕ :=
  ds.foldl (fun acc ch => acc * 16 + (hexDigitVal ch).getD 0) 0

/-- JS `parseInt(s, 16)` on the strings this pipeline produces: parse the
maximal leading run of hexadecimal digits; with no leading digit the
result is `NaN` (`none`).  (`parseInt` would additionally skip leading
whitespace, a sign and a `0x` prefix; those shapes do not occur here.) -/
def parseIntHex (cs : List Char) : Option ℕ :=
  let ds := cs.takeWhile (fun ch => (hexDigitVal ch).isSome)
  if ds.isEmpty then none else some (hexVal ds)

/-- Decimal digit value of a character. -/
def decDigitVal (ch : Char) : Option ℕ :=
  if '0' ≤ ch ∧ ch ≤ '9' then some (ch.toNat - 48) else none

/-- Value of a run of decimal digits. -/
def decVal (ds : List Char) : ℕ :=
  ds.foldl (fun acc ch => acc * 10 + (decDigitVal ch).getD 0) 0

/-- JS `Number(s)` for a string, on the shapes JSON numbers take: optional
minus sign, integer digits, optional fractional part; the empty string
converts to `0`; anything else is `NaN` (`none`). -/
def parseNumber (cs : List Char) : Option ℚ :=
  let core : List Char → Option ℚ := fun cs2 =>
    let intPart := cs2.takeWhile (fun ch => (decDigitVal ch).isSome)
    let rest := cs2.drop intPart.length
    match rest with
    | [] => if intPart.isEmpty then none else some (decVal intPart)
    | '.' :: frac =>
        if (intPart.isEmpty && frac.isEmpty) ||
            !(frac.all (fun ch => (decDigitVal ch).isSome)) then none
        else some ((decVal intPart : ℚ) + (decVal frac : ℚ) / 10 ^ frac.length)
    | _ => none
  match cs with
  | [] => some 0
  | '-' :: cs2 => (core cs2).map (fun q => -q)
  | _ => core cs

/-- JS `Number(v)` of a possibly-absent field: `undefined → NaN` (`none`),
`null → 0`, numbers unchanged, strings parsed. -/
def toNumber : Option JSVal → Option ℚ
  | none => none
  | some (JSVal.num q) => some q
  | some (JSVal.str s) => parseNumber s.data
  | some JSVal.null => some 0

/-- `Number(v.x) || 0` of the import code (`NaN`, like `0`, gives `0`). -/
def numOr0 (v : Option JSVal) : ℚ := (toNumber v).getD 0

/-- `if (colorVal.startsWith('#')) colorVal = colorVal.substring(1)`. -/
def stripHash (cs : List Char) : List Char :=
  match cs with
  | c :: rest => if c = '#' then rest else c :: rest
  | [] => []

/-- The colour normalisation of `handleJsonImport` (src/App.tsx,
lines 156-170):
```
let colorVal = v.c || v.color;
let colorInt = 0xCCCCCC;
if (typeof colorVal === 'string') {
    if (colorVal.startsWith('#')) colorVal = colorVal.substring(1);
    colorInt = parseInt(colorVal, 16);
} else if (typeof colorVal === 'number') {
    colorInt = colorVal;
}
// and on the record: color: isNaN(colorInt) ? 0xCCCCCC : colorInt
```
`none` from `parseIntHex` is the `NaN` case caught by `isNaN`. -/
def importColor (c color : Option JSVal) : ℚ :=
  match jsOr c color with
  | some (JSVal.str s) =>
      match parseIntHex (stripHash s.data) with
      | none => 0xCCCCCC
      | some n => (n : ℚ)
  | some (JSVal.num q) => q
  | _ => 0xCCCCCC

/-- One parsed record of the imported JSON array, with the fields that
the import code reads. -/
structure RawVoxel where
  c : Option JSVal
  color : Option JSVal
  x : Option JSVal
  y : Option JSVal
  z : Option JSVal
deriving Repr

/-- One normalised `VoxelData` produced by `handleJsonImport`; its colour
is the raw JS number the code computes. -/
structure ImportedVoxel where
  x : ℚ
  y : ℚ
  z : ℚ
  color : ℚ
deriving DecidableEq, Repr

/-- The data-cleaning map of `handleJsonImport` (src/App.tsx,
lines 154-172). -/
def handleJsonImport (rs : List RawVoxel) : List ImportedVoxel :=
  rs.map (fun r =>
    { x := numOr0 r.x, y := numOr0 r.y, z := numOr0 r.z,
      color := importColor r.c r.color })

/-- JS `Math.round` (half toward `+∞`). -/
def jsRound (q : ℚ) : ℤ := ⌊q + 1 / 2⌋

/-- One colour channel as a byte, `Math.round(clamp(ch * 255, 0, 255))` of
`THREE.Color.getHex`. -/
def byteOf (q : ℚ) : ℕ := (jsRound (min (max (q * 255) 0) 255)).toNat

/-- `THREE.Color.getHex()`: the three channel bytes packed. -/
def hexOfColor (c : QColor) : ℕ :=
  byteOf c.r * 65536 + byteOf c.g * 256 + byteOf c.b

/-- The lowercase hexadecimal digit character for `n < 16`. -/
def hexDigitChar (n : ℕ) : Char :=
  if n < 10 then Char.ofNat (48 + n) else Char.ofNat (87 + n)

/-- `getHexString()`: six lowercase hexadecimal digits. -/
def natToHex6 (n : ℕ) : List Char :=
  [hexDigitChar (n / 16 ^ 5 % 16), hexDigitChar (n / 16 ^ 4 % 16),
   hexDigitChar (n / 16 ^ 3 % 16), hexDigitChar (n / 16 ^ 2 % 16),
   hexDigitChar (n / 16 % 16), hexDigitChar (n % 16)]

/-- `+v.x.toFixed(2)`: round to two decimal places, ties toward the larger
value (the `toFixed` specification picks the larger candidate). -/
def round2 (q : ℚ) : ℚ := (⌊q * 100 + 1 / 2⌋ : ℤ) / 100

/-- One record of the exported JSON array. -/
structure ExportVoxel where
  id : ℕ
  x : ℚ
  y : ℚ
  z : ℚ
  c : String
deriving Repr

def getJsonDataAux : ℕ → List SimulationVoxel → List ExportVoxel
  | _, [] => []
  | i, v :: rest =>
    { id := i, x := round2 v.x, y := round2 v.y, z := round2 v.z,
      c := ⟨'#' :: natToHex6 (hexOfColor v.color)⟩ }
      :: getJsonDataAux (i + 1) rest

/-- `getJsonData` (src/services/VoxelEngine.ts, lines 387-396), as the
record array handed to `JSON.stringify`. -/
def getJsonData (voxels : List SimulationVoxel) : List ExportVoxel :=
  getJsonDataAux 0 voxels

/-- `JSON.parse` of one stringified export record: the same fields come
back (numbers and strings survive stringify→parse unchanged); the record
has a `c` field and no `color` field. -/
def exportToRaw (ev : ExportVoxel) : RawVoxel :=
  { c := some (JSVal.str ev.c), color := none,
    x := some (JSVal.num ev.x), y := some (JSVal.num ev.y),
    z := some (JSVal.num ev.z) }

/-! ## Round-trip lemmas for the hexadecimal colour string -/

theorem hexDigitVal_hexDigitChar (d : ℕ) (h : d < 16) :
    hexDigitVal (hexDigitChar d) = some d := by
  interval_cases d <;> decide

theorem parseIntHex_natToHex6 (n : ℕ) :
    parseIntHex (natToHex6 n) =
      some (((((n / 16 ^ 5 % 16 * 16 + n / 16 ^ 4 % 16) * 16
        + n / 16 ^ 3 % 16) * 16 + n / 16 ^ 2 % 16) * 16
        + n / 16 % 16) * 16 + n % 16) := by
  have e5 := hexDigitVal_hexDigitChar (n / 1048576 % 16) (Nat.mod_lt _ (by norm_num))
  have e4 := hexDigitVal_hexDigitChar (n / 65536 % 16) (Nat.mod_lt _ (by norm_num))
  have e3 := hexDigitVal_hexDigitChar (n / 4096 % 16) (Nat.mod_lt _ (by norm_num))
  have e2 := hexDigitVal_hexDigitChar (n / 256 % 16) (Nat.mod_lt _ (by norm_num))
  have e1 := hexDigitVal_hexDigitChar (n / 16 % 16) (Nat.mod_lt _ (by norm_num))
  have e0 := hexDigitVal_hexDigitChar (n % 16) (Nat.mod_lt _ (by norm_num))
  simp [natToHex6, parseIntHex, List.takeWhile, e5, e4, e3, e2, e1, e0,
    hexVal, List.foldl]

/-- Export→import identity on the 24-bit colour value. -/
theorem parseIntHex_natToHex6_lt (n : ℕ) (h : n < 16777216) :
    parseIntHex (natToHex6 n) = some n := by
  rw [parseIntHex_natToHex6]
  congr 1
  omega

theorem byteOf_grid (k : ℕ) (hk : k ≤ 255) : byteOf ((k : ℚ) / 255) = k := by
  simp only [byteOf, jsRound]
  have h1 : (k : ℚ) / 255 * 255 = (k : ℚ) := by field_simp
  rw [h1]
  have h2 : max ((k : ℚ)) 0 = (k : ℚ) := max_eq_left (by positivity)
  have h3 : min ((k : ℚ)) 255 = (k : ℚ) :=
    min_eq_left (by exact_mod_cast hk)
  rw [h2, h3]
  have h4 : (⌊(k : ℚ) + 1 / 2⌋ : ℤ) = (k : ℤ) := by
    rw [Int.floor_eq_iff]
    constructor
    · push_cast; linarith
    · push_cast; linarith
  rw [h4]
  omega

/-- `getHex` inverts `new THREE.Color(hex)` exactly on the byte grid. -/
theorem hexOfColor_colorOfHex (n : ℕ) (h : n < 16777216) :
    hexOfColor (colorOfHex n) = n := by
  simp only [hexOfColor, colorOfHex]
  rw [byteOf_grid (n / 65536 % 256) (by omega),
    byteOf_grid (n / 256 % 256) (by omega),
    byteOf_grid (n % 256) (by omega)]
  omega

theorem byteOf_le (q : ℚ) : byteOf q ≤ 255 := by
  simp only [byteOf, jsRound]
  have h1 : min (max (q * 255) 0) 255 ≤ 255 := min_le_right _ _
  have h2 : (⌊min (max (q * 255) 0) 255 + 1 / 2⌋ : ℤ) ≤ 255 := by
    have := Int.floor_le_floor (α := ℚ)
      (show min (max (q * 255) 0) 255 + 1 / 2 ≤ 255 + 1 / 2 by linarith)
    have h3 : (⌊(255 : ℚ) + 1 / 2⌋ : ℤ) = 255 := by
      rw [Int.floor_eq_iff]
      norm_num
    omega
  omega

theorem hexOfColor_lt (c : QColor) : hexOfColor c < 16777216 := by
  have h1 := byteOf_le c.r
  have h2 := byteOf_le c.g
  have h3 := byteOf_le c.b
  simp only [hexOfColor]
  omega

theorem round2_close (q : ℚ) : |round2 q - q| ≤ 1 / 200 := by
  simp only [round2]
  have h1 : (⌊q * 100 + 1 / 2⌋ : ℚ) ≤ q * 100 + 1 / 2 := Int.floor_le _
  have h2 : q * 100 + 1 / 2 - 1 < (⌊q * 100 + 1 / 2⌋ : ℚ) :=
    Int.sub_one_lt_floor _
  rw [abs_le]
  constructor <;> linarith

/-- Importing the exported `'#rrggbb'` colour string recovers the 24-bit
value exactly. -/
theorem importColor_hash_hex (m : ℕ) (h : m < 16777216) (o : Option JSVal) :
    importColor (some (JSVal.str ⟨'#' :: natToHex6 m⟩)) o = (m : ℚ) := by
  have hne : (⟨'#' :: natToHex6 m⟩ : String) ≠ "" := by
    intro hcon
    have := congrArg String.data hcon
    simp [natToHex6] at this
  have htr : truthy (some (JSVal.str ⟨'#' :: natToHex6 m⟩)) = true := by
    simp [truthy, bne_iff_ne, hne]
  simp only [importColor, jsOr, htr, if_true]
  have hstrip : stripHash (String.data ⟨'#' :: natToHex6 m⟩) = natToHex6 m := rfl
  rw [hstrip, parseIntHex_natToHex6_lt m h]

/-- The record that export immediately followed by import produces for a
voxel: rounded coordinates and the packed 24-bit colour value. -/
def roundTripRecord (v : SimulationVoxel) : ImportedVoxel :=
  { x := round2 v.x, y := round2 v.y, z := round2 v.z,
    color := ((hexOfColor v.color : ℕ) : ℚ) }

/-- Import of export, record by record. -/
theorem handleJsonImport_getJsonData (voxels : List SimulationVoxel) :
    ∀ k : ℕ, handleJsonImport ((getJsonDataAux k voxels).map exportToRaw) =
      voxels.map roundTripRecord := by
  induction voxels with
  | nil => intro k; rfl
  | cons v rest ih =>
    intro k
    simp only [getJsonDataAux, List.map_cons, handleJsonImport] at ih ⊢
    congr 1
    · simp only [exportToRaw, numOr0, toNumber, Option.getD_some,
        roundTripRecord]
      congr 1
      exact importColor_hash_hex (hexOfColor v.color) (hexOfColor_lt v.color)
        none
    · exact ih (k + 1)

/-- **C8.**  Exporting the current voxels (positions rounded to two decimal
places, colour rendered as a `#rrggbb` string) and immediately importing
the exported JSON reproduces every position within `0.01` of its
pre-export value, and reproduces every colour exactly: the imported colour
value is the voxel's 24-bit colour, whose `THREE.Color` is the original
colour whenever that colour lies on the byte grid (as every colour built
from a 24-bit value does). -/
theorem c8_export_import_round_trip (voxels : List SimulationVoxel)
    (hgrid : ∀ v ∈ voxels, ∃ m, m < 16777216 ∧ v.color = colorOfHex m) :
    (handleJsonImport ((getJsonData voxels).map exportToRaw)).length
      = voxels.length ∧
    ∀ i (hv : i < voxels.length)
      (hi : i < (handleJsonImport ((getJsonData voxels).map exportToRaw)).length),
      |(handleJsonImport ((getJsonData voxels).map exportToRaw))[i].x
          - voxels[i].x| ≤ 1 / 100 ∧
      |(handleJsonImport ((getJsonData voxels).map exportToRaw))[i].y
          - voxels[i].y| ≤ 1 / 100 ∧
      |(handleJsonImport ((getJsonData voxels).map exportToRaw))[i].z
          - voxels[i].z| ≤ 1 / 100 ∧
      (handleJsonImport ((getJsonData voxels).map exportToRaw))[i].color
          = ((hexOfColor voxels[i].color : ℕ) : ℚ) ∧
      colorOfHex (hexOfColor voxels[i].color) = voxels[i].color := by
  have hmain : handleJsonImport ((getJsonData voxels).map exportToRaw)
      = voxels.map roundTripRecord := handleJsonImport_getJsonData voxels 0
  have hlen : (handleJsonImport ((getJsonData voxels).map exportToRaw)).length
      = voxels.length := by
    rw [hmain, List.length_map]
  refine ⟨hlen, ?_⟩
  intro i hv hi
  have hget : (handleJsonImport ((getJsonData voxels).map exportToRaw))[i]
      = roundTripRecord voxels[i] := by
    have h2 : (handleJsonImport ((getJsonData voxels).map exportToRaw))[i]
        = (voxels.map roundTripRecord).get ⟨i, by rw [List.length_map]; exact hv⟩ := by
      congr 1
    rw [h2, List.get_eq_getElem, List.getElem_map]
  have hclose : ∀ q : ℚ, |round2 q - q| ≤ 1 / 100 :=
    fun q => le_trans (round2_close q) (by norm_num)
  obtain ⟨m, hm, hcm⟩ := hgrid voxels[i] (List.getElem_mem hv)
  refine ⟨?_, ?_, ?_, ?_, ?_⟩
  · rw [hget]; exact hclose voxels[i].x
  · rw [hget]; exact hclose voxels[i].y
  · rw [hget]; exact hclose voxels[i].z
  · rw [hget]; rfl
  · rw [hcm, hexOfColor_colorOfHex m hm]

/-- The C8 witness voxel: `x = 1/3` (a coordinate the rounding actually
changes) and colour `0xABCDEF`. -/
def thirdVoxel : SimulationVoxel :=
  { redVoxel with x := 1 / 3, color := colorOfHex 0xABCDEF }

/-- Witness for C8: the voxel at `x = 1/3` with colour `0xABCDEF` survives
the round trip within `0.01` and with its colour intact. -/
theorem c8_export_import_round_trip_witness :
    (∀ v ∈ [thirdVoxel], ∃ m, m < 16777216 ∧ v.color = colorOfHex m) ∧
    ∀ i (hv : i < ([thirdVoxel] : List SimulationVoxel).length)
      (hi : i < (handleJsonImport
          ((getJsonData [thirdVoxel]).map exportToRaw)).length),
      |(handleJsonImport ((getJsonData [thirdVoxel]).map exportToRaw))[i].x
          - ([thirdVoxel] : List SimulationVoxel)[i].x| ≤ 1 / 100 ∧
      colorOfHex (hexOfColor ([thirdVoxel] : List SimulationVoxel)[i].color)
        = ([thirdVoxel] : List SimulationVoxel)[i].color := by
  have hgrid : ∀ v ∈ [thirdVoxel], ∃ m, m < 16777216 ∧ v.color = colorOfHex m := by
    intro v hv
    fin_cases hv
    exact ⟨0xABCDEF, by norm_num, rfl⟩
  have h := c8_export_import_round_trip [thirdVoxel] hgrid
  exact ⟨hgrid, fun i hv hi => ⟨(h.2 i hv hi).1, (h.2 i hv hi).2.2.2.2⟩⟩

/-! # Claims about JSON import normalisation (C9) -/

theorem takeWhile_of_all {p : Char → Bool} :
    ∀ cs : List Char, (∀ ch ∈ cs, p ch = true) → cs.takeWhile p = cs := by
  intro cs
  induction cs with
  | nil => intro _; rfl
  | cons c rest ih =>
    intro h
    simp only [List.takeWhile, h c (List.mem_cons_self c rest)]
    rw [ih (fun ch hch => h ch (List.mem_cons_of_mem c hch))]

/-- A parsed record whose colour is the decimal integer `0` under the
`c` key. -/
def blackCRecord : RawVoxel :=
  { c := some (JSVal.num 0), color := none, x := some (JSVal.num 1),
    y := some (JSVal.num 2), z := some (JSVal.num 3) }

/-- **C9, counterexample.**  A colour given as the decimal integer `0`
(black) under the `c` key is *not* accepted: `0` is falsy, so
`v.c || v.color` skips it, and with no `color` field the default neutral
gray `0xCCCCCC` is used although the value was a perfectly parseable,
finite decimal integer. -/
theorem c9_import_counterexample :
    handleJsonImport [blackCRecord]
      = [{ x := 1, y := 2, z := 3, color := 0xCCCCCC }] ∧
    (0xCCCCCC : ℚ) ≠ 0 := by
  constructor
  · simp [handleJsonImport, numOr0, toNumber, importColor, jsOr, truthy,
      blackCRecord]
  · norm_num

/-- **C9, amended.**  On JSON import: a colour given as a `#RRGGBB` or
`RRGGBB` hexadecimal string is accepted; a colour given as a *nonzero*
decimal number under the `c` key, or as any decimal number under the
`color` key, is accepted; the falsy decimal `0` under `c` (with no
`color` field) is coerced to the default neutral gray `0xCCCCCC`, as is
any unparseable string; and a missing, `null`, or unparseable `x`, `y` or
`z` coordinate is coerced to `0`.  (Non-finite numbers cannot come out of
`JSON.parse`.) -/
theorem c9_import_amended :
    (∀ (cs : List Char) (o : Option JSVal), cs ≠ [] →
      (∀ ch ∈ cs, (hexDigitVal ch).isSome = true) →
      importColor (some (JSVal.str ⟨'#' :: cs⟩)) o = (hexVal cs : ℚ)) ∧
    (∀ (cs : List Char) (o : Option JSVal), cs ≠ [] →
      (∀ ch ∈ cs, (hexDigitVal ch).isSome = true) →
      importColor (some (JSVal.str ⟨cs⟩)) o = (hexVal cs : ℚ)) ∧
    (∀ (q : ℚ) (o : Option JSVal), q ≠ 0 →
      importColor (some (JSVal.num q)) o = q) ∧
    (∀ q : ℚ, importColor none (some (JSVal.num q)) = q) ∧
    importColor (some (JSVal.num 0)) none = 0xCCCCCC ∧
    (∀ (s : String) (o : Option JSVal), s ≠ "" →
      parseIntHex (stripHash s.data) = none →
      importColor (some (JSVal.str s)) o = 0xCCCCCC) ∧
    numOr0 none = 0 ∧
    numOr0 (some JSVal.null) = 0 ∧
    (∀ s : String, parseNumber s.data = none →
      numOr0 (some (JSVal.str s)) = 0) := by
  have hstr : ∀ (cs : List Char), cs ≠ [] →
      truthy (some (JSVal.str ⟨cs⟩)) = true := by
    intro cs hne
    simp only [truthy, bne_iff_ne, ne_eq]
    intro hcon
    have := congrArg String.data hcon
    simp at this
    exact hne this
  have hparse : ∀ (cs : List Char), cs ≠ [] →
      (∀ ch ∈ cs, (hexDigitVal ch).isSome = true) →
      parseIntHex cs = some (hexVal cs) := by
    intro cs hne hall
    simp only [parseIntHex, takeWhile_of_all cs hall]
    rw [if_neg (by simpa using hne)]
  refine ⟨?_, ?_, ?_, ?_, ?_, ?_, rfl, rfl, ?_⟩
  · intro cs o hne hall
    have ht := hstr ('#' :: cs) (by simp)
    simp only [importColor, jsOr, ht, if_true]
    have hs : stripHash (String.data ⟨'#' :: cs⟩) = cs := by
      simp [stripHash]
    rw [hs, hparse cs hne hall]
  · intro cs o hne hall
    have ht := hstr cs hne
    simp only [importColor, jsOr, ht, if_true]
    obtain ⟨c0, rest, rfl⟩ : ∃ c0 rest, cs = c0 :: rest := by
      cases cs with
      | nil => exact absurd rfl hne
      | cons a b => exact ⟨a, b, rfl⟩
    have hc0 : c0 ≠ '#' := by
      intro hcon
      have := hall c0 (List.mem_cons_self c0 rest)
      rw [hcon] at this
      simp [hexDigitVal] at this
    have hs : stripHash (String.data ⟨c0 :: rest⟩) = c0 :: rest := by
      simp [stripHash, hc0]
    rw [hs, hparse (c0 :: rest) hne hall]
  · intro q o hq
    have ht : truthy (some (JSVal.num q)) = true := by
      simp [truthy, bne_iff_ne, hq]
    simp [importColor, jsOr, ht]
  · intro q
    simp [importColor, jsOr, truthy]
  · simp [importColor, jsOr, truthy]
  · intro s o hne hnone
    have ht : truthy (some (JSVal.str s)) = true := by
      simp [truthy, bne_iff_ne, hne]
    simp only [importColor, jsOr, ht, if_true, hnone]
  · intro s hnone
    simp [numOr0, toNumber, hnone]

/-- Witness for the amended C9: concrete instances of the acceptance and
coercion rules. -/
theorem c9_import_amended_witness :
    (((['f', 'f', '7', 'f', '0', '0'] : List Char) ≠ [] ∧
      (∀ ch ∈ (['f', 'f', '7', 'f', '0', '0'] : List Char),
        (hexDigitVal ch).isSome = true)) ∧ (5 : ℚ) ≠ 0) ∧
    importColor (some (JSVal.str ⟨'#' :: ['f', 'f', '7', 'f', '0', '0']⟩))
        none = (hexVal ['f', 'f', '7', 'f', '0', '0'] : ℚ) ∧
    importColor (some (JSVal.num 5)) none = 5 := by
  have h := c9_import_amended
  exact ⟨⟨⟨by decide, by decide⟩, by norm_num⟩,
    h.1 ['f', 'f', '7', 'f', '0', '0'] none (by decide) (by decide),
    h.2.2.1 5 none (by norm_num)⟩

end VoxelSim
